import Mathlib

/-!
Verification of the order matching engine core (Order.cpp / Order.hpp /
OrderBook.cpp / OrderBook.hpp) via a shallow embedding.

Prices, quantities and timestamps are modelled as `Int`: the C++ code stores
prices as `double` but performs only comparisons and assignments on them,
which are exact for the integral values used throughout; quantities are C++
`int`s.  `std::shared_ptr<Order>` aliasing (the same mutable order object is
observed from the priority queues, `orderMap` and `userOrders`) is modelled by
a central object store keyed by order id, with the containers holding keys.
The priority-queue comparators read only the immutable fields `price` and
`timestamp`, so each heap is modelled as a list kept sorted with the top
(maximal) element at the head.  C++ `throw` is modelled as `Option.none`.
-/

namespace OME

/-- OrderType from Order.hpp. -/
inductive OrderType where
  | LIMIT
  | MARKET
  | STOP_LOSS
deriving DecidableEq, Repr

/-- OrderSide from Order.hpp. -/
inductive OrderSide where
  | BUY
  | SELL
deriving DecidableEq, Repr

/-- OrderStatus from Order.hpp. -/
inductive OrderStatus where
  | PENDING
  | PARTIAL_FILL
  | FILLED
  | CANCELLED
  | REJECTED
  | TRIGGERED
deriving DecidableEq, Repr

/-- The Order entity (fields of class Order in Order.hpp). -/
structure Order where
  orderId : String
  userId : String
  symbol : String
  type : OrderType
  side : OrderSide
  price : Int
  quantity : Int
  remainingQuantity : Int
  status : OrderStatus
  timestamp : Int
  triggerPrice : Int
deriving DecidableEq, Repr

/-- Order::Order (Order.cpp): the member initializers set
`remainingQuantity = quantity` and `status = PENDING`; the validation block
throws `std::invalid_argument` (modelled as `none`) on empty ids or symbol,
non-positive quantity, a LIMIT order with non-positive price, or a STOP_LOSS
order with non-positive trigger price.  The creation timestamp is injected as
a parameter. -/
def mkOrder (orderId userId symbol : String) (type : OrderType) (side : OrderSide)
    (price quantity triggerPrice timestamp : Int) : Option Order :=
  if orderId = "" then none
  else if userId = "" then none
  else if symbol = "" then none
  else if quantity ≤ 0 then none
  else if type = OrderType.LIMIT ∧ price ≤ 0 then none
  else if type = OrderType.STOP_LOSS ∧ triggerPrice ≤ 0 then none
  else some ⟨orderId, userId, symbol, type, side, price, quantity, quantity,
             OrderStatus.PENDING, timestamp, triggerPrice⟩

/-- Order::fillOrder (Order.cpp): throws (none) unless
`0 < filledQuantity ≤ remainingQuantity`; otherwise subtracts, sets status to
FILLED when the remainder is zero (returning true) and to PARTIAL_FILL
otherwise (returning false). -/
def Order.fillOrder (o : Order) (filledQuantity : Int) : Option (Order × Bool) :=
  if filledQuantity ≤ 0 ∨ filledQuantity > o.remainingQuantity then none
  else if o.remainingQuantity - filledQuantity = 0 then
    some ({ o with remainingQuantity := o.remainingQuantity - filledQuantity,
                   status := OrderStatus.FILLED }, true)
  else
    some ({ o with remainingQuantity := o.remainingQuantity - filledQuantity,
                   status := OrderStatus.PARTIAL_FILL }, false)

/-- The state update performed by Order::fillOrder in its non-throwing case.
The matching loop always calls fillOrder with `0 < n ≤ remaining` (the trade
quantity is the minimum of two positive remainders), so there it never
throws; `fillApply` is that guaranteed-success update. -/
def fillApply (o : Order) (n : Int) : Order :=
  { o with remainingQuantity := o.remainingQuantity - n,
           status := if o.remainingQuantity - n = 0 then OrderStatus.FILLED
                     else OrderStatus.PARTIAL_FILL }

/-- Order::isCompatibleWith (Order.cpp): same symbol, opposite sides, both
remainders positive, neither side FILLED or CANCELLED, and either a MARKET
order is involved or the limit prices cross. -/
def Order.isCompatibleWith (o other : Order) : Bool :=
  if o.symbol ≠ other.symbol then false
  else if o.side = other.side then false
  else if o.remainingQuantity ≤ 0 ∨ other.remainingQuantity ≤ 0 then false
  else if o.status = OrderStatus.FILLED ∨ o.status = OrderStatus.CANCELLED ∨
          other.status = OrderStatus.FILLED ∨ other.status = OrderStatus.CANCELLED then false
  else if o.side = OrderSide.BUY ∧ other.side = OrderSide.SELL then
    if o.type = OrderType.MARKET ∨ other.type = OrderType.MARKET then true
    else decide (o.price ≥ other.price)
  else if o.side = OrderSide.SELL ∧ other.side = OrderSide.BUY then
    if o.type = OrderType.MARKET ∨ other.type = OrderType.MARKET then true
    else decide (o.price ≤ other.price)
  else false

/-- Heap key of a resting order.  std::priority_queue compares the stored
`OrderPtr`s with BuyOrderComparator / SellOrderComparator, which read only
`price` and `timestamp`; neither field is ever written while an order rests,
so the key is immutable and can be cached in the container. -/
structure Key where
  id : String
  price : Int
  timestamp : Int
deriving DecidableEq, Repr

/-- BuyOrderComparator (Order.hpp): `a` is below `b` when `a` has the lower
price, or at equal price the later timestamp. -/
def buyLess (a b : Key) : Bool :=
  if a.price ≠ b.price then decide (a.price < b.price) else decide (a.timestamp > b.timestamp)

/-- SellOrderComparator (Order.hpp): `a` is below `b` when `a` has the higher
price, or at equal price the later timestamp. -/
def sellLess (a b : Key) : Bool :=
  if a.price ≠ b.price then decide (a.price > b.price) else decide (a.timestamp > b.timestamp)

/-- std::priority_queue::push, modelled on a list kept sorted with the top
(comparator-maximal) element at the head: the new key is placed in front of
the first strictly smaller key. -/
def pqInsert (less : Key → Key → Bool) (x : Key) : List Key → List Key
  | [] => [x]
  | y :: t => if less y x then x :: y :: t else y :: pqInsert less x t

/-- Key of a stop order in the AVL stop books: the comparators
StopLossBuyComparator / StopLossSellComparator (OrderBook.hpp) read only the
trigger price. -/
structure StopKey where
  id : String
  trigger : Int
deriving DecidableEq, Repr

/-- StopLossBuyComparator (OrderBook.hpp): lower trigger first. -/
def stopBuyLess (a b : StopKey) : Bool := decide (a.trigger < b.trigger)

/-- StopLossSellComparator (OrderBook.hpp): higher trigger first. -/
def stopSellLess (a b : StopKey) : Bool := decide (a.trigger > b.trigger)

/-- AVLTree::insert (OrderBook.cpp): ordered insertion; an element comparing
equal to an existing one ("Equal keys not allowed") is silently dropped.  The
tree is modelled by its in-order traversal. -/
def avlInsert (less : StopKey → StopKey → Bool) (x : StopKey) : List StopKey → List StopKey
  | [] => [x]
  | y :: t =>
    if less x y then x :: y :: t
    else if less y x then y :: avlInsert less x t
    else y :: t

/-- The Trade result struct (OrderBook.hpp).  `tradeId` and `timestamp` are
opaque generated values that no claim mentions and are omitted. -/
structure Trade where
  buyOrderId : String
  sellOrderId : String
  price : Int
  quantity : Int
deriving DecidableEq, Repr

/-- Lookup in the central order-object store (first entry with the id). -/
def storeGet : List (String × Order) → String → Option Order
  | [], _ => none
  | (i, x) :: t, id => if i = id then some x else storeGet t id

/-- In-place mutation of the order object with the given id (appends when the
id is absent, which addToOrderBook uses for a fresh order). -/
def storeSet : List (String × Order) → String → Order → List (String × Order)
  | [], id, o => [(id, o)]
  | (i, x) :: t, id, o => if i = id then (i, o) :: t else (i, x) :: storeSet t id o

/-- The OrderBook state (OrderBook.hpp): the two priority queues, the two
stop-loss AVL trees, `orderMap` (modelled as the list of mapped ids, the
objects living in `store`), `userOrders`, and the statistics fields. -/
structure OrderBook where
  symbol : String
  buyOrders : List Key
  sellOrders : List Key
  buyStopLossOrders : List StopKey
  sellStopLossOrders : List StopKey
  orderMapIds : List String
  userOrders : List (String × List String)
  store : List (String × Order)
  lastTradePrice : Int
  totalTrades : Int
  totalVolume : Int
deriving DecidableEq, Repr

/-- OrderBook::OrderBook: all containers empty, statistics zero. -/
def emptyBook (symbol : String) : OrderBook :=
  ⟨symbol, [], [], [], [], [], [], [], 0, 0, 0⟩

/-- userOrders[userId].push_back(order): appends the id to the user's vector,
creating the entry on first use (std::unordered_map::operator[]). -/
def userAdd : List (String × List String) → String → String → List (String × List String)
  | [], u, id => [(u, [id])]
  | (v, l) :: t, u, id => if v = u then (v, l ++ [id]) :: t else (v, l) :: userAdd t u id

/-- The erase/remove_if in OrderBook::removeFromOrderBook: drops every
occurrence of the id from the user's vector. -/
def userRemove (us : List (String × List String)) (u id : String) : List (String × List String) :=
  us.map (fun p => if p.1 = u then (p.1, p.2.filter (fun x => x ≠ id)) else p)

/-- OrderBook::addToOrderBook: registers the order in orderMap and
userOrders and pushes it onto the priority queue of its side.  Note the
source pushes every order — including STOP_LOSS orders — onto a side heap. -/
def addToOrderBook (b : OrderBook) (o : Order) : OrderBook :=
  let b1 := { b with
    store := storeSet b.store o.orderId o,
    orderMapIds := if o.orderId ∈ b.orderMapIds then b.orderMapIds else o.orderId :: b.orderMapIds,
    userOrders := userAdd b.userOrders o.userId o.orderId }
  if o.side = OrderSide.BUY then
    { b1 with buyOrders := pqInsert buyLess ⟨o.orderId, o.price, o.timestamp⟩ b1.buyOrders }
  else
    { b1 with sellOrders := pqInsert sellLess ⟨o.orderId, o.price, o.timestamp⟩ b1.sellOrders }

/-- OrderBook::removeFromOrderBook: when the id is mapped, erases it from
orderMap and from the owning user's vector.  The priority queues and stop
trees are not touched (a heap cannot remove interior entries). -/
def removeFromOrderBook (b : OrderBook) (id : String) : OrderBook :=
  if id ∈ b.orderMapIds then
    match storeGet b.store id with
    | some o => { b with orderMapIds := b.orderMapIds.erase id,
                         userOrders := userRemove b.userOrders o.userId id }
    | none => { b with orderMapIds := b.orderMapIds.erase id }
  else b

/-- The matching loop of OrderBook::matchOrder, covering its two symmetric
branches; `keys` is the opposite-side priority queue.  Each iteration checks
the while condition (`!empty && remaining > 0`), breaks when the incoming
order is not compatible with the best resting order, pops the best order,
prices the trade (maker price, except a MARKET maker trades at the taker's
price, or at lastTradePrice when the taker is MARKET too), fills both sides
by `min` of the remainders, updates statistics and lastTradePrice, and
either pushes the partially filled maker back (after which the while
condition fails because the incoming side is exhausted: the trade quantity
was its whole remainder) or evicts the filled maker via
removeFromOrderBook.  The `none` store branch is unreachable for book states
whose heap keys denote live objects. -/
def matchLoop (b : OrderBook) (inc : Order) (keys : List Key) (acc : List Trade) :
    List Key × OrderBook × Order × List Trade :=
  match keys with
  | [] => ([], b, inc, acc)
  | k :: rest =>
    if inc.remainingQuantity ≤ 0 then (k :: rest, b, inc, acc)
    else
      match storeGet b.store k.id with
      | none => (k :: rest, b, inc, acc)
      | some best =>
        if inc.isCompatibleWith best then
          let tradePrice := if best.type = OrderType.MARKET then
              (if inc.type = OrderType.MARKET then b.lastTradePrice else inc.price)
            else best.price
          let q := min inc.remainingQuantity best.remainingQuantity
          let inc' := fillApply inc q
          let best' := fillApply best q
          let tr := if inc.side = OrderSide.BUY then Trade.mk inc.orderId best.orderId tradePrice q
                    else Trade.mk best.orderId inc.orderId tradePrice q
          let b1 := { b with store := storeSet b.store k.id best',
                             totalTrades := b.totalTrades + 1,
                             totalVolume := b.totalVolume + q,
                             lastTradePrice := tradePrice }
          if best'.remainingQuantity > 0 then
            (k :: rest, b1, inc', acc ++ [tr])
          else
            matchLoop (removeFromOrderBook b1 best.orderId) inc' rest (acc ++ [tr])
        else (k :: rest, b, inc, acc)

/-- OrderBook::matchOrder: a BUY order consumes the sell queue, a SELL order
the buy queue; returns the updated book, the (mutated) incoming order and
the trades in emission order. -/
def matchOrder (b : OrderBook) (inc : Order) : OrderBook × Order × List Trade :=
  if inc.side = OrderSide.BUY then
    let r := matchLoop b inc b.sellOrders []
    ({ r.2.1 with sellOrders := r.1 }, r.2.2.1, r.2.2.2)
  else
    let r := matchLoop b inc b.buyOrders []
    ({ r.2.1 with buyOrders := r.1 }, r.2.2.1, r.2.2.2)

/-- OrderBook::checkStopLossOrders: the body in OrderBook.cpp is empty (a
comment says what it "would" do); the call changes nothing. -/
def checkStopLossOrders (b : OrderBook) (currentPrice : Int) : OrderBook := b

/-- OrderBook::addOrder: throws (none) on a symbol mismatch; a STOP_LOSS
order is inserted into its stop tree and then registered through
addToOrderBook (which also pushes it onto its side's priority queue) and no
trades are returned; otherwise the order is matched, any positive remainder
is added to the book regardless of its type, and when trades were produced
checkStopLossOrders runs with the last trade's price. -/
def addOrder (b : OrderBook) (order : Order) : Option (OrderBook × List Trade) :=
  if order.symbol ≠ b.symbol then none
  else if order.type = OrderType.STOP_LOSS then
    let b1 := if order.side = OrderSide.BUY then
        { b with buyStopLossOrders :=
            avlInsert stopBuyLess ⟨order.orderId, order.triggerPrice⟩ b.buyStopLossOrders }
      else
        { b with sellStopLossOrders :=
            avlInsert stopSellLess ⟨order.orderId, order.triggerPrice⟩ b.sellStopLossOrders }
    some (addToOrderBook b1 order, [])
  else
    let r := matchOrder b order
    let b2 := if r.2.1.remainingQuantity > 0 then addToOrderBook r.1 r.2.1 else r.1
    let b3 := match r.2.2.getLast? with
      | none => b2
      | some t => checkStopLossOrders b2 t.price
    some (b3, r.2.2)

/-- OrderBook::cancelOrder: false when the id is not in orderMap; otherwise
sets the order's status to CANCELLED, evicts it from orderMap and userOrders
via removeFromOrderBook (the heap entry stays behind), and returns true. -/
def cancelOrder (b : OrderBook) (orderId : String) : OrderBook × Bool :=
  if orderId ∈ b.orderMapIds then
    match storeGet b.store orderId with
    | some o =>
      (removeFromOrderBook
        { b with store := storeSet b.store orderId { o with status := OrderStatus.CANCELLED } }
        orderId, true)
    | none => (removeFromOrderBook b orderId, true)
  else (b, false)

/-- OrderBook::getBestBid: price of the top of the buy queue, 0 when empty. -/
def getBestBid (b : OrderBook) : Int :=
  match b.buyOrders with
  | [] => 0
  | k :: _ => k.price

/-- OrderBook::getBestAsk: price of the top of the sell queue, 0 when empty. -/
def getBestAsk (b : OrderBook) : Int :=
  match b.sellOrders with
  | [] => 0
  | k :: _ => k.price

/-! Concrete fixtures used to evaluate the model at specific inputs.  Every
order below satisfies the constructor validation (mkOrder returns it), with
timestamps standing for the monotone creation counter. -/

/-- Apply addOrder and keep the book (all fixture calls succeed). -/
def step (b : OrderBook) (o : Order) : OrderBook := ((addOrder b o).getD (b, [])).1

/-- MARKET SELL s1 qty 5 (price 0). -/
def exMktSell1 : Order := ⟨"s1", "u1", "S", .MARKET, .SELL, 0, 5, 5, .PENDING, 1, 0⟩

/-- MARKET BUY b1 qty 5 (price 0). -/
def exMktBuy1 : Order := ⟨"b1", "u2", "S", .MARKET, .BUY, 0, 5, 5, .PENDING, 2, 0⟩

/-- Book holding only the resting market sell s1; lastTradePrice is still 0. -/
def c1book : OrderBook := step (emptyBook "S") exMktSell1

/-- MARKET BUY m1 qty 5 submitted to a fresh book (scenario S5). -/
def exMktBuy0 : Order := ⟨"m1", "u1", "S", .MARKET, .BUY, 0, 5, 5, .PENDING, 1, 0⟩

/-- STOP_LOSS SELL st1 trigger 90, price field 0, qty 5. -/
def exStopSell : Order := ⟨"st1", "u1", "S", .STOP_LOSS, .SELL, 0, 5, 5, .PENDING, 1, 90⟩

/-- LIMIT BUY b1 @100 qty 5. -/
def exLimitBuy100 : Order := ⟨"b1", "u2", "S", .LIMIT, .BUY, 100, 5, 5, .PENDING, 2, 0⟩

/-- Book holding only the resting (PENDING) stop sell st1. -/
def c3book : OrderBook := step (emptyBook "S") exStopSell

/-- STOP_LOSS BUY sb trigger 100, price field 0, qty 10. -/
def exStopBuy : Order := ⟨"sb", "u1", "S", .STOP_LOSS, .BUY, 0, 10, 10, .PENDING, 1, 100⟩

/-- LIMIT SELL s1 @100 qty 1. -/
def exSell100q1 : Order := ⟨"s1", "u2", "S", .LIMIT, .SELL, 100, 1, 1, .PENDING, 2, 0⟩

/-- LIMIT BUY b1 @100 qty 1. -/
def exBuy100q1 : Order := ⟨"b1", "u3", "S", .LIMIT, .BUY, 100, 1, 1, .PENDING, 3, 0⟩

/-- Book with the resting stop buy sb (trigger 100) and the resting limit
sell s1 @100: the next buy at 100 trades at a price ≥ the trigger. -/
def c4book : OrderBook := step (step (emptyBook "S") exStopBuy) exSell100q1

/-- LIMIT BUY x1 @100 qty 5. -/
def exLimitBuyX : Order := ⟨"x1", "u1", "S", .LIMIT, .BUY, 100, 5, 5, .PENDING, 1, 0⟩

/-- STOP_LOSS SELL st1 trigger 90 with price field 50, qty 5. -/
def exStopSell50 : Order := ⟨"st1", "u2", "S", .STOP_LOSS, .SELL, 50, 5, 5, .PENDING, 2, 90⟩

/-- Book with the resting limit buy @100 and then the stop sell with price
field 50 pushed onto the ask queue: best bid 100, best ask 50. -/
def c5book : OrderBook := step (step (emptyBook "S") exLimitBuyX) exStopSell50

/-- LIMIT SELL S1 @100 qty 5, the earlier of the two (scenario S3). -/
def exS1 : Order := ⟨"S1", "u1", "S", .LIMIT, .SELL, 100, 5, 5, .PENDING, 1, 0⟩

/-- LIMIT SELL S2 @100 qty 5, the later of the two (scenario S3). -/
def exS2 : Order := ⟨"S2", "u2", "S", .LIMIT, .SELL, 100, 5, 5, .PENDING, 2, 0⟩

/-- LIMIT BUY B1 @100 qty 7: crosses S1 fully and S2 partially. -/
def exB1 : Order := ⟨"B1", "u3", "S", .LIMIT, .BUY, 100, 7, 7, .PENDING, 3, 0⟩

/-- Book with S1 and S2 resting on the ask side in arrival order. -/
def s3book : OrderBook := step (step (emptyBook "S") exS1) exS2

/-- Book holding only the resting stop buy sb. -/
def c7book : OrderBook := step (emptyBook "S") exStopBuy

/-- Book holding only the resting limit buy x1 @100. -/
def c8book : OrderBook := step (emptyBook "S") exLimitBuyX

/-- LIMIT SELL a1 @100 qty 10 (used for reachable-book witnesses). -/
def exAsk100 : Order := ⟨"a1", "u1", "S", .LIMIT, .SELL, 100, 10, 10, .PENDING, 1, 0⟩

/-- LIMIT BUY d1 @90 qty 10: does not cross the ask at 100 and rests. -/
def exBid90 : Order := ⟨"d1", "u2", "S", .LIMIT, .BUY, 90, 10, 10, .PENDING, 2, 0⟩

/-- Book with a resting ask at 100 and a resting bid at 90. -/
def c5wbook : OrderBook := step (step (emptyBook "S") exAsk100) exBid90

/-! Predicates used by the general theorems. -/

/-- The exact condition under which Order::Order succeeds, together with the
state the constructor establishes (`remaining = quantity`, status PENDING):
the shape of every order a caller can hand to the book. -/
def ValidOrder (o : Order) : Prop :=
  o.orderId ≠ "" ∧ o.userId ≠ "" ∧ o.symbol ≠ "" ∧ 0 < o.quantity ∧
  (o.type = OrderType.LIMIT → 0 < o.price) ∧
  (o.type = OrderType.STOP_LOSS → 0 < o.triggerPrice) ∧
  o.remainingQuantity = o.quantity ∧ o.status = OrderStatus.PENDING

/-- How the incoming order can evolve across the matching loop: the identity
fields never change, the remainder never grows, and the status either stays
untouched or is that written by the last fillOrder call (FILLED exactly when
the remainder reached zero, PARTIAL_FILL otherwise). -/
def IncEvolved (a a' : Order) : Prop :=
  a'.orderId = a.orderId ∧ a'.userId = a.userId ∧ a'.symbol = a.symbol ∧ a'.type = a.type ∧
  a'.side = a.side ∧ a'.price = a.price ∧ a'.timestamp = a.timestamp ∧
  a'.quantity = a.quantity ∧ a'.triggerPrice = a.triggerPrice ∧
  a'.remainingQuantity ≤ a.remainingQuantity ∧
  (a' = a ∨ a'.status = (if a'.remainingQuantity = 0 then OrderStatus.FILLED
                         else OrderStatus.PARTIAL_FILL))

/-- The maker (resting side) order id recorded in a trade: executeTrade puts
the resting order on the sell side of the trade when the incoming order buys,
and on the buy side when it sells. -/
def makerId (side : OrderSide) (t : Trade) : String :=
  if side = OrderSide.BUY then t.sellOrderId else t.buyOrderId

/-- The trade price policy of the matching loop, checked along a trade list:
each trade's price is the maker's posted price unless the maker is MARKET, in
which case it is the taker's price for a LIMIT taker and the
last-trade price in effect just before the trade (the previous trade's price,
or the book's lastTradePrice for the first trade) when the taker is MARKET
too. -/
def PriceOk (s : List (String × Order)) (incType : OrderType) (incPrice : Int)
    (incSide : OrderSide) : Int → List Trade → Prop
  | _, [] => True
  | ltp, t :: ts =>
    (∃ m, storeGet s (makerId incSide t) = some m ∧
      t.price = (if m.type = OrderType.MARKET then
          (if incType = OrderType.MARKET then ltp else incPrice) else m.price)) ∧
    PriceOk s incType incPrice incSide t.price ts

/-- Every heap key denotes a stored order object carrying that id. -/
def KeysHaveIds (s : List (String × Order)) (keys : List Key) : Prop :=
  ∀ k ∈ keys, ∃ o, storeGet s k.id = some o ∧ o.orderId = k.id

/-- The priority queue the matching loop of matchOrder consumes. -/
def oppKeys (b : OrderBook) (inc : Order) : List Key :=
  if inc.side = OrderSide.BUY then b.sellOrders else b.buyOrders

/-- A heap list is sorted when no earlier element is below a later one under
the comparator (the head is then the priority_queue top). -/
def HeapSorted (less : Key → Key → Bool) (l : List Key) : Prop :=
  l.Pairwise (fun a b => less a b = false)

/-- Sortedness of the queue the matching loop consumes. -/
def oppSorted (b : OrderBook) (inc : Order) : Prop :=
  if inc.side = OrderSide.BUY then HeapSorted sellLess b.sellOrders
  else HeapSorted buyLess b.buyOrders

/-- userOrders lookup (empty for an unknown user, as operator[] would give). -/
def userGet : List (String × List String) → String → List String
  | [], _ => []
  | (v, l) :: t, u => if v = u then l else userGet t u

/-- Liveness of a side's heap keys: each denotes a stored, still-matchable
order of that side and symbol with the key's price. -/
def KeysLiveSide (b : OrderBook) (keys : List Key) (side : OrderSide) : Prop :=
  ∀ k ∈ keys, ∃ o, storeGet b.store k.id = some o ∧ o.orderId = k.id ∧ o.price = k.price ∧
    o.side = side ∧ o.symbol = b.symbol ∧ 0 < o.remainingQuantity ∧
    o.status ≠ OrderStatus.FILLED ∧ o.status ≠ OrderStatus.CANCELLED

/-- The book is not crossed: whenever both queues are non-empty, the top bid
price is below the top ask price. -/
def NotCrossed (b : OrderBook) : Prop :=
  ∀ kb ks, b.buyOrders.head? = some kb → b.sellOrders.head? = some ks → kb.price < ks.price

/-- Inductive invariant for books built from LIMIT and MARKET orders only. -/
def BookInv (b : OrderBook) : Prop :=
  KeysLiveSide b b.buyOrders OrderSide.BUY ∧ KeysLiveSide b b.sellOrders OrderSide.SELL ∧
  HeapSorted buyLess b.buyOrders ∧ HeapSorted sellLess b.sellOrders ∧
  (b.buyOrders.map Key.id ++ b.sellOrders.map Key.id).Nodup ∧
  NotCrossed b

/-- Books reachable by addOrder calls of constructor-valid LIMIT and MARKET
orders with fresh ids (order ids are unique, as the spec requires). -/
inductive ReachLM : OrderBook → Prop where
  | base (s : String) : ReachLM (emptyBook s)
  | add (b : OrderBook) (o : Order) (b' : OrderBook) (tr : List Trade) :
      ReachLM b → ValidOrder o → o.type ≠ OrderType.STOP_LOSS →
      storeGet b.store o.orderId = none →
      addOrder b o = some (b', tr) → ReachLM b'

/-- Books reachable by addOrder (all order types) and cancelOrder calls,
with fresh ids at submission. -/
inductive Reach : OrderBook → Prop where
  | base (s : String) : Reach (emptyBook s)
  | add (b : OrderBook) (o : Order) (b' : OrderBook) (tr : List Trade) :
      Reach b → ValidOrder o → storeGet b.store o.orderId = none →
      addOrder b o = some (b', tr) → Reach b'
  | cancel (b : OrderBook) (oid : String) (b' : OrderBook) (r : Bool) :
      Reach b → cancelOrder b oid = (b', r) → Reach b'

/-- Every stored object carries the id it is keyed under (every write in the
code stores an order at its own id). -/
def StoreIdsOk (b : OrderBook) : Prop :=
  ∀ id o, storeGet b.store id = some o → o.orderId = id

/-- Book-map consistency as the code actually maintains it: orderMap ids are
unique, each mapped id denotes a stored order that has a slot in the heap of
its side and is listed under its owner in userOrders, and every id recorded
under a user is a mapped id whose stored owner is that user. -/
def MapInv (b : OrderBook) : Prop :=
  StoreIdsOk b ∧ b.orderMapIds.Nodup ∧ (b.userOrders.map Prod.fst).Nodup ∧
  (∀ id ∈ b.orderMapIds, ∃ o, storeGet b.store id = some o ∧
    (∃ k ∈ (if o.side = OrderSide.BUY then b.buyOrders else b.sellOrders), k.id = id) ∧
    id ∈ userGet b.userOrders o.userId) ∧
  (∀ p ∈ b.userOrders, ∀ id ∈ p.2, id ∈ b.orderMapIds ∧
    ∃ o, storeGet b.store id = some o ∧ o.userId = p.1)

/-- Map-consistency invariant, generalized over the key list of each side so
it can be threaded through the matching loop. -/
def MapInvAuxF (b : OrderBook) (sk : OrderSide → List Key) : Prop :=
  StoreIdsOk b ∧ b.orderMapIds.Nodup ∧ (b.userOrders.map Prod.fst).Nodup ∧
  (∀ id ∈ b.orderMapIds, ∃ o, storeGet b.store id = some o ∧
    (∃ k ∈ sk o.side, k.id = id) ∧ id ∈ userGet b.userOrders o.userId) ∧
  (∀ p ∈ b.userOrders, ∀ id ∈ p.2, id ∈ b.orderMapIds ∧
    ∃ o, storeGet b.store id = some o ∧ o.userId = p.1)

/-- Map-consistency as held by an actual book state. -/
def MapInvBook (b : OrderBook) : Prop :=
  MapInvAuxF b (fun sd => if sd = OrderSide.BUY then b.buyOrders else b.sellOrders)

end OME


namespace OME

/-- C9: the Order constructor throws exactly on an empty order id, user id
or symbol, a non-positive quantity, a LIMIT order with non-positive price or
a STOP_LOSS order with non-positive trigger price; an accepted order starts
PENDING with remainingQuantity equal to quantity. -/
theorem order_ctor_spec (oid uid sym : String) (type : OrderType) (side : OrderSide)
    (price qty trig ts : Int) :
    (mkOrder oid uid sym type side price qty trig ts = none ↔
      (oid = "" ∨ uid = "" ∨ sym = "" ∨ qty ≤ 0 ∨ (type = OrderType.LIMIT ∧ price ≤ 0) ∨
       (type = OrderType.STOP_LOSS ∧ trig ≤ 0))) ∧
    (∀ o, mkOrder oid uid sym type side price qty trig ts = some o →
      o.remainingQuantity = o.quantity ∧ o.status = OrderStatus.PENDING ∧
      o = ⟨oid, uid, sym, type, side, price, qty, qty, OrderStatus.PENDING, ts, trig⟩) := by
  unfold mkOrder
  split_ifs with h1 h2 h3 h4 h5 h6 <;> simp_all <;> tauto

theorem order_ctor_spec_witness :
    (mkOrder "" "u" "S" OrderType.LIMIT OrderSide.BUY 10 5 0 1 = none) ∧
    ((⟨"a", "u", "S", OrderType.LIMIT, OrderSide.BUY, 10, 5, 5, OrderStatus.PENDING, 1, 0⟩ :
        Order).remainingQuantity =
      (⟨"a", "u", "S", OrderType.LIMIT, OrderSide.BUY, 10, 5, 5, OrderStatus.PENDING, 1, 0⟩ :
        Order).quantity) :=
  ⟨(order_ctor_spec "" "u" "S" OrderType.LIMIT OrderSide.BUY 10 5 0 1).1.mpr (Or.inl rfl),
   ((order_ctor_spec "a" "u" "S" OrderType.LIMIT OrderSide.BUY 10 5 0 1).2 _ (by decide)).1⟩

/-- C10: Order::fillOrder with 0 < n ≤ remainingQuantity decrements the
remainder by n, returns true exactly when the order is now fully filled, and
sets the status to FILLED on a full fill and PARTIAL_FILL otherwise. -/
theorem fillOrder_spec (o : Order) (n : Int) (h1 : 0 < n) (h2 : n ≤ o.remainingQuantity) :
    ∃ o' r, o.fillOrder n = some (o', r) ∧
      o'.remainingQuantity = o.remainingQuantity - n ∧
      (r = true ↔ o'.remainingQuantity = 0) ∧
      (r = true → o'.status = OrderStatus.FILLED) ∧
      (r = false → o'.status = OrderStatus.PARTIAL_FILL) := by
  unfold Order.fillOrder
  split_ifs with hg hz
  · omega
  · exact ⟨_, _, rfl, rfl, by simp [hz], fun _ => rfl, by simp⟩
  · exact ⟨_, _, rfl, rfl, by simp [hz], by simp, fun _ => rfl⟩

theorem fillOrder_spec_witness :
    ∃ o' r, (⟨"a", "u", "S", OrderType.LIMIT, OrderSide.BUY, 10, 5, 5, OrderStatus.PENDING, 1, 0⟩ :
        Order).fillOrder 3 = some (o', r) ∧
      o'.remainingQuantity = 5 - 3 ∧
      (r = true ↔ o'.remainingQuantity = 0) ∧
      (r = true → o'.status = OrderStatus.FILLED) ∧
      (r = false → o'.status = OrderStatus.PARTIAL_FILL) :=
  fillOrder_spec _ 3 (by decide) (by decide)

/-- C4: OrderBook::checkStopLossOrders has an empty body, so no trade ever
triggers a resting stop order: after a trade at 100, the stop buy sb with
trigger 100 stays PENDING in the stop tree. -/
theorem stop_scan_is_noop :
    (∀ (b : OrderBook) (p : Int), checkStopLossOrders b p = b) ∧
    ((addOrder c4book exBuy100q1).map (fun pr => (pr.2,
        (storeGet pr.1.store "sb").map Order.status, pr.1.buyStopLossOrders)) =
      some ([⟨"b1", "s1", 100, 1⟩], some OrderStatus.PENDING, [⟨"sb", 100⟩])) :=
  ⟨fun _ _ => rfl, by decide⟩

/-- Counterexample to C1 as worded: two MARKET orders match at
lastTradePrice even when no reference price exists yet, producing a trade at
price 0 instead of a NoReferencePrice rejection. -/
theorem market_market_zero_ref_trades :
    (addOrder c1book exMktBuy1).map Prod.snd =
      some [⟨"b1", "s1", 0, 5⟩] ∧ c1book.lastTradePrice = 0 := by decide

/-- Counterexample to C2 as worded: a MARKET buy that finds no liquidity is
not rejected or expired; it rests in orderMap and on the bid heap, PENDING. -/
theorem market_order_rests_not_rejected :
    (addOrder (emptyBook "S") exMktBuy0).map (fun pr => (pr.2, pr.1.orderMapIds,
      (storeGet pr.1.store "m1").map Order.status,
      pr.1.buyOrders.map Key.id)) = some ([], ["m1"], some OrderStatus.PENDING, ["m1"]) := by decide

/-- Counterexample to C3 as worded: a resting stop order is still PENDING
(never triggered) yet matches an incoming limit buy directly off the sell
heap. -/
theorem stop_order_matches_while_pending :
    (storeGet c3book.store "st1").map Order.status = some OrderStatus.PENDING ∧
    (addOrder c3book exLimitBuy100).map Prod.snd = some [⟨"b1", "st1", 0, 5⟩] := by decide

/-- Counterexample to C5 as worded: a stop sell with price 50 resting on
the ask heap crosses the 100 bid, leaving best bid at or above best ask. -/
theorem stop_insert_crosses_book :
    c5book.buyOrders ≠ [] ∧ c5book.sellOrders ≠ [] ∧
    getBestBid c5book = 100 ∧ getBestAsk c5book = 50 ∧
    ¬ getBestBid c5book < getBestAsk c5book := by decide

/-- Counterexample to C7 as worded: a stop order is registered both in its
stop tree and on its side's priority queue, not in exactly one structure. -/
theorem stop_double_slot :
    "sb" ∈ c7book.orderMapIds ∧
    (⟨"sb", 100⟩ : StopKey) ∈ c7book.buyStopLossOrders ∧
    (⟨"sb", 0, 1⟩ : Key) ∈ c7book.buyOrders := by decide

/-- Counterexample to C8 as worded: cancelOrder removes the order from
orderMap but leaves its heap entry behind (the store still has it,
CANCELLED). -/
theorem cancel_leaves_heap_entry :
    (cancelOrder c8book "x1").2 = true ∧
    (cancelOrder c8book "x1").1.buyOrders = [⟨"x1", 100, 1⟩] ∧
    (storeGet (cancelOrder c8book "x1").1.store "x1").map Order.status =
      some OrderStatus.CANCELLED := by decide

end OME


namespace OME

theorem storeGet_storeSet_self (s : List (String × Order)) (id : String) (o : Order) :
    storeGet (storeSet s id o) id = some o := by
  induction s with
  | nil => simp [storeSet, storeGet]
  | cons p t ih =>
    obtain ⟨i, x⟩ := p
    by_cases h : i = id <;> simp [storeSet, storeGet, h, ih]

theorem storeGet_storeSet_ne (s : List (String × Order)) (id x : String) (o : Order)
    (h : x ≠ id) : storeGet (storeSet s id o) x = storeGet s x := by
  induction s with
  | nil => simp [storeSet, storeGet, Ne.symm h]
  | cons p t ih =>
    obtain ⟨i, y⟩ := p
    by_cases hi : i = id
    · subst hi
      simp [storeSet, storeGet, Ne.symm h]
    · simp [storeSet, storeGet, hi, ih]

theorem pqInsert_perm (less : Key → Key → Bool) (x : Key) (l : List Key) :
    List.Perm (pqInsert less x l) (x :: l) := by
  induction l with
  | nil => exact List.Perm.refl _
  | cons y t ih =>
    unfold pqInsert
    by_cases h : less y x = true
    · rw [if_pos h]
    · rw [if_neg h]
      exact (ih.cons y).trans (List.Perm.swap x y t)

theorem pqInsert_mem_self (less : Key → Key → Bool) (x : Key) (l : List Key) :
    x ∈ pqInsert less x l :=
  (pqInsert_perm less x l).mem_iff.mpr (List.mem_cons_self x l)

theorem pqInsert_mem (less : Key → Key → Bool) (x y : Key) (l : List Key) :
    y ∈ pqInsert less x l ↔ y = x ∨ y ∈ l := by
  rw [(pqInsert_perm less x l).mem_iff, List.mem_cons]

theorem pqInsert_head (less : Key → Key → Bool) (x : Key) (l : List Key) :
    (pqInsert less x l).head? = some x ∨ (pqInsert less x l).head? = l.head? := by
  cases l with
  | nil => left; rfl
  | cons y t =>
    unfold pqInsert
    by_cases h : less y x = true
    · rw [if_pos h]; left; rfl
    · rw [if_neg h]; right; rfl

theorem buyLess_asymm (a b : Key) (h : buyLess a b = true) : buyLess b a = false := by
  unfold buyLess at *
  split_ifs at * <;> simp_all <;> omega

theorem sellLess_asymm (a b : Key) (h : sellLess a b = true) : sellLess b a = false := by
  unfold sellLess at *
  split_ifs at * <;> simp_all <;> omega

theorem buyLess_shift (a y z : Key) (h1 : buyLess y a = true) (h2 : buyLess y z = false) :
    buyLess a z = false := by
  unfold buyLess at *
  split_ifs at * <;> simp_all <;> omega

theorem sellLess_shift (a y z : Key) (h1 : sellLess y a = true) (h2 : sellLess y z = false) :
    sellLess a z = false := by
  unfold sellLess at *
  split_ifs at * <;> simp_all <;> omega

theorem pqInsert_sorted (less : Key → Key → Bool)
    (hasym : ∀ a b, less a b = true → less b a = false)
    (hshift : ∀ a y z, less y a = true → less y z = false → less a z = false)
    (x : Key) (l : List Key) (hs : HeapSorted less l) :
    HeapSorted less (pqInsert less x l) := by
  induction l with
  | nil => simp [pqInsert, HeapSorted]
  | cons y t ih =>
    rw [HeapSorted, List.pairwise_cons] at hs
    obtain ⟨hy, ht⟩ := hs
    unfold pqInsert
    by_cases h : less y x = true
    · rw [if_pos h]
      rw [HeapSorted, List.pairwise_cons]
      constructor
      · intro z hz
        rcases List.mem_cons.mp hz with rfl | hz'
        · exact hasym _ _ h
        · exact hshift x y z h (hy z hz')
      · rw [List.pairwise_cons]
        exact ⟨hy, ht⟩
    · rw [if_neg h]
      rw [HeapSorted, List.pairwise_cons]
      constructor
      · intro z hz
        rcases (pqInsert_mem less x z t).mp hz with rfl | hz'
        · simpa using h
        · exact hy z hz'
      · exact ih ht

theorem sell_head_le (l : List Key) (hs : HeapSorted sellLess l) (h : Key) (k : Key)
    (hh : l.head? = some h) (hk : k ∈ l) : h.price ≤ k.price := by
  cases l with
  | nil => simp at hh
  | cons y t =>
    simp at hh
    subst hh
    rw [HeapSorted, List.pairwise_cons] at hs
    rcases List.mem_cons.mp hk with rfl | hk'
    · exact le_refl _
    · have := hs.1 k hk'
      unfold sellLess at this
      split_ifs at this <;> simp_all <;> omega

theorem buy_head_ge (l : List Key) (hs : HeapSorted buyLess l) (h : Key) (k : Key)
    (hh : l.head? = some h) (hk : k ∈ l) : k.price ≤ h.price := by
  cases l with
  | nil => simp at hh
  | cons y t =>
    simp at hh
    subst hh
    rw [HeapSorted, List.pairwise_cons] at hs
    rcases List.mem_cons.mp hk with rfl | hk'
    · exact le_refl _
    · have := hs.1 k hk'
      unfold buyLess at this
      split_ifs at this <;> simp_all <;> omega

theorem removeFromOrderBook_store (b : OrderBook) (id : String) :
    (removeFromOrderBook b id).store = b.store := by
  unfold removeFromOrderBook
  split_ifs with h
  · cases storeGet b.store id <;> rfl
  · rfl

theorem removeFromOrderBook_buyOrders (b : OrderBook) (id : String) :
    (removeFromOrderBook b id).buyOrders = b.buyOrders := by
  unfold removeFromOrderBook
  split_ifs with h
  · cases storeGet b.store id <;> rfl
  · rfl

theorem removeFromOrderBook_sellOrders (b : OrderBook) (id : String) :
    (removeFromOrderBook b id).sellOrders = b.sellOrders := by
  unfold removeFromOrderBook
  split_ifs with h
  · cases storeGet b.store id <;> rfl
  · rfl

theorem removeFromOrderBook_buyStops (b : OrderBook) (id : String) :
    (removeFromOrderBook b id).buyStopLossOrders = b.buyStopLossOrders := by
  unfold removeFromOrderBook
  split_ifs with h
  · cases storeGet b.store id <;> rfl
  · rfl

theorem removeFromOrderBook_sellStops (b : OrderBook) (id : String) :
    (removeFromOrderBook b id).sellStopLossOrders = b.sellStopLossOrders := by
  unfold removeFromOrderBook
  split_ifs with h
  · cases storeGet b.store id <;> rfl
  · rfl

theorem removeFromOrderBook_symbol (b : OrderBook) (id : String) :
    (removeFromOrderBook b id).symbol = b.symbol := by
  unfold removeFromOrderBook
  split_ifs with h
  · cases storeGet b.store id <;> rfl
  · rfl

theorem removeFromOrderBook_ltp (b : OrderBook) (id : String) :
    (removeFromOrderBook b id).lastTradePrice = b.lastTradePrice := by
  unfold removeFromOrderBook
  split_ifs with h
  · cases storeGet b.store id <;> rfl
  · rfl

theorem compat_facts (o other : Order) (h : o.isCompatibleWith other = true) :
    o.symbol = other.symbol ∧ o.side ≠ other.side ∧
    0 < o.remainingQuantity ∧ 0 < other.remainingQuantity ∧
    o.status ≠ OrderStatus.FILLED ∧ o.status ≠ OrderStatus.CANCELLED ∧
    other.status ≠ OrderStatus.FILLED ∧ other.status ≠ OrderStatus.CANCELLED := by
  unfold Order.isCompatibleWith at h
  split_ifs at h <;> simp_all <;> omega

theorem matchLoop_fields (keys : List Key) :
    ∀ (b : OrderBook) (inc : Order) (acc : List Trade),
    (matchLoop b inc keys acc).2.1.buyOrders = b.buyOrders ∧
    (matchLoop b inc keys acc).2.1.sellOrders = b.sellOrders ∧
    (matchLoop b inc keys acc).2.1.buyStopLossOrders = b.buyStopLossOrders ∧
    (matchLoop b inc keys acc).2.1.sellStopLossOrders = b.sellStopLossOrders ∧
    (matchLoop b inc keys acc).2.1.symbol = b.symbol := by
  induction keys with
  | nil => intro b inc acc; exact ⟨rfl, rfl, rfl, rfl, rfl⟩
  | cons k rest ih =>
    intro b inc acc
    rw [matchLoop]
    cases hs : storeGet b.store k.id with
    | none =>
      dsimp only
      split_ifs <;> exact ⟨rfl, rfl, rfl, rfl, rfl⟩
    | some best =>
      dsimp only
      split_ifs <;>
        first
        | exact ⟨rfl, rfl, rfl, rfl, rfl⟩
        | (refine ⟨(ih _ _ _).1.trans ?_, (ih _ _ _).2.1.trans ?_, (ih _ _ _).2.2.1.trans ?_,
            (ih _ _ _).2.2.2.1.trans ?_, (ih _ _ _).2.2.2.2.trans ?_⟩ <;>
           simp [removeFromOrderBook_buyOrders, removeFromOrderBook_sellOrders,
                 removeFromOrderBook_buyStops, removeFromOrderBook_sellStops,
                 removeFromOrderBook_symbol])

theorem matchLoop_acc (keys : List Key) :
    ∀ (b : OrderBook) (inc : Order) (acc : List Trade),
    (matchLoop b inc keys acc).1 = (matchLoop b inc keys []).1 ∧
    (matchLoop b inc keys acc).2.1 = (matchLoop b inc keys []).2.1 ∧
    (matchLoop b inc keys acc).2.2.1 = (matchLoop b inc keys []).2.2.1 ∧
    (matchLoop b inc keys acc).2.2.2 = acc ++ (matchLoop b inc keys []).2.2.2 := by
  induction keys with
  | nil => intro b inc acc; exact ⟨rfl, rfl, rfl, by simp [matchLoop]⟩
  | cons k rest ih =>
    intro b inc acc
    rw [matchLoop, matchLoop]
    cases hs : storeGet b.store k.id with
    | none =>
      dsimp only
      split_ifs <;> exact ⟨rfl, rfl, rfl, by simp⟩
    | some best =>
      dsimp only
      split_ifs <;>
        first
        | exact ⟨rfl, rfl, rfl, by simp⟩
        | (refine ⟨((ih _ _ _).1).trans ((ih _ _ _).1).symm, ((ih _ _ _).2.1).trans ((ih _ _ _).2.1).symm,
            ((ih _ _ _).2.2.1).trans ((ih _ _ _).2.2.1).symm, ?_⟩
           conv_rhs => rw [(ih _ _ _).2.2.2]
           rw [(ih _ _ _).2.2.2]
           simp)

end OME

namespace OME

theorem storeGet_storeSet_isSome (s : List (String × Order)) (id x : String) (o : Order)
    (h : (storeGet s x).isSome) : (storeGet (storeSet s id o) x).isSome := by
  by_cases hx : x = id
  · subst hx; rw [storeGet_storeSet_self]; rfl
  · rw [storeGet_storeSet_ne s id x o hx]; exact h

theorem matchLoop_suffix (keys : List Key) :
    ∀ (b : OrderBook) (inc : Order) (acc : List Trade),
    (matchLoop b inc keys acc).1 <:+ keys := by
  induction keys with
  | nil => intro b inc acc; exact List.suffix_refl _
  | cons k rest ih =>
    intro b inc acc
    rw [matchLoop]
    cases hs : storeGet b.store k.id with
    | none =>
      dsimp only
      split_ifs <;> exact List.suffix_refl _
    | some best =>
      dsimp only
      split_ifs <;>
        first
        | exact List.suffix_refl _
        | exact (ih _ _ _).trans (List.suffix_cons k rest)

theorem matchLoop_store_local (keys : List Key) :
    ∀ (b : OrderBook) (inc : Order) (acc : List Trade) (x : String),
    x ∉ keys.map Key.id →
    storeGet (matchLoop b inc keys acc).2.1.store x = storeGet b.store x := by
  induction keys with
  | nil => intro b inc acc x _; rfl
  | cons k rest ih =>
    intro b inc acc x hx
    simp only [List.map_cons, List.mem_cons, not_or] at hx
    rw [matchLoop]
    cases hs : storeGet b.store k.id with
    | none =>
      dsimp only
      split_ifs <;> rfl
    | some best =>
      dsimp only
      split_ifs <;>
        first
        | rfl
        | exact storeGet_storeSet_ne _ _ _ _ hx.1
        | (rw [ih _ _ _ x (by simp [hx.2]), removeFromOrderBook_store]
           exact storeGet_storeSet_ne _ _ _ _ hx.1)

theorem incEvolved_refl (a : Order) : IncEvolved a a :=
  ⟨rfl, rfl, rfl, rfl, rfl, rfl, rfl, rfl, rfl, le_refl _, Or.inl rfl⟩

theorem incEvolved_fill (a : Order) (q : Int) (hq : 0 ≤ q) : IncEvolved a (fillApply a q) := by
  refine ⟨rfl, rfl, rfl, rfl, rfl, rfl, rfl, rfl, rfl, by simp [fillApply]; omega, Or.inr ?_⟩
  simp [fillApply]

theorem incEvolved_step (a : Order) (q : Int) (hq : 0 ≤ q) (a' : Order)
    (h : IncEvolved (fillApply a q) a') : IncEvolved a a' := by
  obtain ⟨e1, e2, e3, e4, e5, e6, e7, e8, e9, hrem, hst⟩ := h
  refine ⟨e1, e2, e3, e4, e5, e6, e7, e8, e9, ?_, ?_⟩
  · simp only [fillApply] at hrem
    omega
  · rcases hst with rfl | hrule
    · exact Or.inr (by simp [fillApply])
    · exact Or.inr hrule

theorem matchLoop_inc_evolved (keys : List Key) :
    ∀ (b : OrderBook) (inc : Order) (acc : List Trade),
    IncEvolved inc (matchLoop b inc keys acc).2.2.1 := by
  induction keys with
  | nil => intro b inc acc; exact incEvolved_refl inc
  | cons k rest ih =>
    intro b inc acc
    rw [matchLoop]
    by_cases h1 : inc.remainingQuantity ≤ 0
    · rw [if_pos h1]; exact incEvolved_refl inc
    rw [if_neg h1]
    cases hs : storeGet b.store k.id with
    | none => exact incEvolved_refl inc
    | some best =>
      dsimp only
      by_cases hc : inc.isCompatibleWith best = true
      · rw [if_pos hc]
        have hq0 : 0 ≤ min inc.remainingQuantity best.remainingQuantity := by
          have := compat_facts _ _ hc
          omega
        by_cases hq : (fillApply best (min inc.remainingQuantity best.remainingQuantity)).remainingQuantity > 0
        · rw [if_pos hq]
          exact incEvolved_fill inc _ hq0
        · rw [if_neg hq]
          exact incEvolved_step inc _ hq0 _ (ih _ _ _)
      · rw [if_neg hc]
        exact incEvolved_refl inc

theorem matchLoop_exit (keys : List Key) :
    ∀ (b : OrderBook) (inc : Order) (acc : List Trade),
    (∀ k ∈ keys, (storeGet b.store k.id).isSome) →
    0 < (matchLoop b inc keys acc).2.2.1.remainingQuantity →
    ∀ hd tl, (matchLoop b inc keys acc).1 = hd :: tl →
    ∃ best, storeGet (matchLoop b inc keys acc).2.1.store hd.id = some best ∧
      (matchLoop b inc keys acc).2.2.1.isCompatibleWith best = false := by
  induction keys with
  | nil =>
    intro b inc acc _ _ hd tl heq
    simp [matchLoop] at heq
  | cons k rest ih =>
    intro b inc acc hlive hrem hd tl heq
    rw [matchLoop] at hrem heq ⊢
    by_cases h1 : inc.remainingQuantity ≤ 0
    · rw [if_pos h1] at hrem heq ⊢
      dsimp only at hrem
      omega
    rw [if_neg h1] at hrem heq ⊢
    cases hs : storeGet b.store k.id with
    | none =>
      have := hlive k (List.mem_cons_self k rest)
      rw [hs] at this
      simp at this
    | some best =>
      rw [hs] at hrem heq
      dsimp only at hrem heq ⊢
      by_cases hc : inc.isCompatibleWith best = true
      · rw [if_pos hc] at hrem heq ⊢
        by_cases hq : (fillApply best (min inc.remainingQuantity best.remainingQuantity)).remainingQuantity > 0
        · rw [if_pos hq] at hrem heq ⊢
          dsimp only at hrem
          simp only [fillApply] at hrem hq
          omega
        · rw [if_neg hq] at hrem heq ⊢
          refine ih _ _ _ ?_ hrem hd tl heq
          intro k' hk'
          rw [removeFromOrderBook_store]
          exact storeGet_storeSet_isSome _ _ _ _ (hlive k' (List.mem_cons_of_mem k hk'))
      · rw [if_neg hc] at hrem heq ⊢
        obtain ⟨rfl, rfl⟩ : hd = k ∧ tl = rest := by
          constructor <;> [exact (List.cons.injEq k rest hd tl ▸ heq).1.symm;
            exact (List.cons.injEq k rest hd tl ▸ heq).2.symm]
        exact ⟨best, hs, by simpa using hc⟩

end OME

namespace OME

theorem matchLoop_store_evolve (keys : List Key) :
    ∀ (b : OrderBook) (inc : Order) (acc : List Trade) (x : String),
    (∀ o, storeGet b.store x = some o →
      ∃ o', storeGet (matchLoop b inc keys acc).2.1.store x = some o' ∧
        o'.orderId = o.orderId ∧ o'.userId = o.userId ∧ o'.symbol = o.symbol ∧
        o'.type = o.type ∧ o'.side = o.side ∧ o'.price = o.price ∧
        o'.timestamp = o.timestamp ∧ o'.quantity = o.quantity ∧
        o'.triggerPrice = o.triggerPrice ∧
        o'.remainingQuantity ≤ o.remainingQuantity) ∧
    (storeGet b.store x = none → storeGet (matchLoop b inc keys acc).2.1.store x = none) := by
  induction keys with
  | nil =>
    intro b inc acc x
    exact ⟨fun o h => ⟨o, h, rfl, rfl, rfl, rfl, rfl, rfl, rfl, rfl, rfl, le_refl _⟩, fun h => h⟩
  | cons k rest ih =>
    intro b inc acc x
    rw [matchLoop]
    by_cases h1 : inc.remainingQuantity ≤ 0
    · rw [if_pos h1]
      exact ⟨fun o h => ⟨o, h, rfl, rfl, rfl, rfl, rfl, rfl, rfl, rfl, rfl, le_refl _⟩, fun h => h⟩
    rw [if_neg h1]
    cases hs : storeGet b.store k.id with
    | none =>
      exact ⟨fun o h => ⟨o, h, rfl, rfl, rfl, rfl, rfl, rfl, rfl, rfl, rfl, le_refl _⟩, fun h => h⟩
    | some best =>
      dsimp only
      by_cases hc : inc.isCompatibleWith best = true
      · rw [if_pos hc]
        have hq0 : 0 ≤ min inc.remainingQuantity best.remainingQuantity := by
          have := compat_facts _ _ hc
          omega
        set tp := (if best.type = OrderType.MARKET then
            (if inc.type = OrderType.MARKET then b.lastTradePrice else inc.price)
          else best.price) with htp
        set q := min inc.remainingQuantity best.remainingQuantity with hqd
        set best' := fillApply best q with hbd
        set inc2 := fillApply inc q with hid
        set tr := (if inc.side = OrderSide.BUY then Trade.mk inc.orderId best.orderId tp q
          else Trade.mk best.orderId inc.orderId tp q) with htrd
        set b1 := ({ b with store := storeSet b.store k.id best', totalTrades := b.totalTrades + 1, totalVolume := b.totalVolume + q, lastTradePrice := tp } : OrderBook) with hb1
        by_cases hq : best'.remainingQuantity > 0
        · rw [if_pos hq]
          constructor
          · intro o h
            by_cases hx : x = k.id
            · subst hx
              rw [hs] at h
              injection h with h
              subst h
              refine ⟨best', ?_, rfl, rfl, rfl, rfl, rfl, rfl, rfl, rfl, rfl, ?_⟩
              · exact storeGet_storeSet_self _ _ _
              · rw [hbd]
                simp only [fillApply]
                omega
            · exact ⟨o, (storeGet_storeSet_ne _ _ _ _ hx).trans h,
                rfl, rfl, rfl, rfl, rfl, rfl, rfl, rfl, rfl, le_refl _⟩
          · intro h
            by_cases hx : x = k.id
            · subst hx
              rw [hs] at h
              cases h
            · exact (storeGet_storeSet_ne _ _ _ _ hx).trans h
        · rw [if_neg hq]
          have hb1store : b1.store = storeSet b.store k.id best' := rfl
          constructor
          · intro o h
            by_cases hx : x = k.id
            · subst hx
              rw [hs] at h
              injection h with h
              subst h
              have hstep : storeGet (removeFromOrderBook b1 best.orderId).store k.id =
                  some best' := by
                rw [removeFromOrderBook_store, hb1store]
                exact storeGet_storeSet_self _ _ _
              obtain ⟨o', ho', e1, e2, e3, e4, e5, e6, e7, e8, e9, er⟩ :=
                (ih (removeFromOrderBook b1 best.orderId) inc2 (acc ++ [tr]) k.id).1 best' hstep
              refine ⟨o', ho', e1, e2, e3, e4, e5, e6, e7, e8, e9, ?_⟩
              rw [hbd] at er
              simp only [fillApply] at er
              omega
            · have hstep : storeGet (removeFromOrderBook b1 best.orderId).store x = some o := by
                rw [removeFromOrderBook_store, hb1store]
                exact (storeGet_storeSet_ne _ _ _ _ hx).trans h
              exact (ih (removeFromOrderBook b1 best.orderId) inc2 (acc ++ [tr]) x).1 o hstep
          · intro h
            by_cases hx : x = k.id
            · subst hx
              rw [hs] at h
              cases h
            · refine (ih (removeFromOrderBook b1 best.orderId) inc2 (acc ++ [tr]) x).2 ?_
              rw [removeFromOrderBook_store, hb1store]
              exact (storeGet_storeSet_ne _ _ _ _ hx).trans h
      · rw [if_neg hc]
        exact ⟨fun o h => ⟨o, h, rfl, rfl, rfl, rfl, rfl, rfl, rfl, rfl, rfl, le_refl _⟩, fun h => h⟩

end OME

namespace OME

theorem compat_false_buy (o other : Order) (hsym : o.symbol = other.symbol)
    (hside : o.side = OrderSide.BUY) (hoside : other.side = OrderSide.SELL)
    (hro : 0 < o.remainingQuantity) (hrother : 0 < other.remainingQuantity)
    (hso1 : o.status ≠ OrderStatus.FILLED) (hso2 : o.status ≠ OrderStatus.CANCELLED)
    (hst1 : other.status ≠ OrderStatus.FILLED) (hst2 : other.status ≠ OrderStatus.CANCELLED)
    (h : o.isCompatibleWith other = false) :
    o.type ≠ OrderType.MARKET ∧ other.type ≠ OrderType.MARKET ∧ o.price < other.price := by
  unfold Order.isCompatibleWith at h
  rw [hsym] at h
  split_ifs at h <;> simp_all <;> omega

theorem compat_false_sell (o other : Order) (hsym : o.symbol = other.symbol)
    (hside : o.side = OrderSide.SELL) (hoside : other.side = OrderSide.BUY)
    (hro : 0 < o.remainingQuantity) (hrother : 0 < other.remainingQuantity)
    (hso1 : o.status ≠ OrderStatus.FILLED) (hso2 : o.status ≠ OrderStatus.CANCELLED)
    (hst1 : other.status ≠ OrderStatus.FILLED) (hst2 : other.status ≠ OrderStatus.CANCELLED)
    (h : o.isCompatibleWith other = false) :
    o.type ≠ OrderType.MARKET ∧ other.type ≠ OrderType.MARKET ∧ other.price < o.price := by
  unfold Order.isCompatibleWith at h
  rw [hsym] at h
  split_ifs at h <;> simp_all <;> omega

theorem matchLoop_keysLive (keys : List Key) :
    ∀ (b : OrderBook) (inc : Order) (acc : List Trade) (s : OrderSide),
    KeysLiveSide b keys s → (keys.map Key.id).Nodup →
    KeysLiveSide (matchLoop b inc keys acc).2.1 (matchLoop b inc keys acc).1 s := by
  induction keys with
  | nil =>
    intro b inc acc s hl _
    intro k hk
    simp [matchLoop] at hk
  | cons k rest ih =>
    intro b inc acc s hl hnd
    simp only [List.map_cons, List.nodup_cons, List.mem_map] at hnd
    rw [matchLoop]
    by_cases h1 : inc.remainingQuantity ≤ 0
    · rw [if_pos h1]
      exact hl
    rw [if_neg h1]
    cases hs : storeGet b.store k.id with
    | none => exact hl
    | some best =>
      dsimp only
      by_cases hc : inc.isCompatibleWith best = true
      · rw [if_pos hc]
        have hq0 : 0 < min inc.remainingQuantity best.remainingQuantity := by
          have := compat_facts _ _ hc
          omega
        set tp := (if best.type = OrderType.MARKET then
            (if inc.type = OrderType.MARKET then b.lastTradePrice else inc.price)
          else best.price) with htp
        set q := min inc.remainingQuantity best.remainingQuantity with hqd
        set best' := fillApply best q with hbd
        set inc2 := fillApply inc q with hid
        set tr := (if inc.side = OrderSide.BUY then Trade.mk inc.orderId best.orderId tp q
          else Trade.mk best.orderId inc.orderId tp q) with htrd
        set b1 := ({ b with store := storeSet b.store k.id best', totalTrades := b.totalTrades + 1, totalVolume := b.totalVolume + q, lastTradePrice := tp } : OrderBook) with hb1
        by_cases hq : best'.remainingQuantity > 0
        · rw [if_pos hq]
          intro k' hk'
          rcases List.mem_cons.mp hk' with rfl | hk2
          · obtain ⟨o, ho, hoid, hop, hosd, hosym, horem, hof, hoc⟩ :=
              hl k' (List.mem_cons_self _ _)
            rw [hs] at ho
            injection ho with ho
            subst ho
            refine ⟨best', ?_, ?_, ?_, ?_, ?_, ?_, ?_, ?_⟩
            · exact storeGet_storeSet_self _ _ _
            · exact hoid
            · exact hop
            · exact hosd
            · exact hosym
            · exact hq
            · rw [hbd] at hq ⊢
              simp only [fillApply] at hq ⊢
              split_ifs with hz
              · omega
              · simp
            · rw [hbd] at hq ⊢
              simp only [fillApply] at hq ⊢
              split_ifs with hz
              · omega
              · simp
          · obtain ⟨o, ho, hoid, hop, hosd, hosym, horem, hof, hoc⟩ :=
              hl k' (List.mem_cons_of_mem _ hk2)
            have hne : k'.id ≠ k.id := by
              intro hh
              exact hnd.1 ⟨k', hk2, hh⟩
            exact ⟨o, (storeGet_storeSet_ne _ _ _ _ hne).trans ho,
              hoid, hop, hosd, hosym, horem, hof, hoc⟩
        · rw [if_neg hq]
          refine ih (removeFromOrderBook b1 best.orderId) inc2 (acc ++ [tr]) s ?_ hnd.2
          intro k' hk'
          obtain ⟨o, ho, hoid, hop, hosd, hosym, horem, hof, hoc⟩ :=
            hl k' (List.mem_cons_of_mem _ hk')
          have hne : k'.id ≠ k.id := by
            intro hh
            exact hnd.1 ⟨k', hk', hh⟩
          refine ⟨o, ?_, hoid, hop, hosd, ?_, horem, hof, hoc⟩
          · rw [removeFromOrderBook_store]
            exact (storeGet_storeSet_ne _ _ _ _ hne).trans ho
          · rw [removeFromOrderBook_symbol]
            exact hosym
      · rw [if_neg hc]
        exact hl

end OME

namespace OME

theorem matchLoop_priceOk (keys : List Key) :
    ∀ (b : OrderBook) (inc : Order),
    KeysHaveIds b.store keys → (keys.map Key.id).Nodup →
    PriceOk (matchLoop b inc keys []).2.1.store inc.type inc.price inc.side
      b.lastTradePrice (matchLoop b inc keys []).2.2.2 := by
  induction keys with
  | nil =>
    intro b inc _ _
    simp [matchLoop, PriceOk]
  | cons k rest ih =>
    intro b inc hlive hnd
    simp only [List.map_cons, List.nodup_cons, List.mem_map] at hnd
    rw [matchLoop]
    by_cases h1 : inc.remainingQuantity ≤ 0
    · rw [if_pos h1]
      simp [PriceOk]
    rw [if_neg h1]
    cases hs : storeGet b.store k.id with
    | none => simp [PriceOk]
    | some best =>
      dsimp only
      obtain ⟨ob, hob, hobid⟩ := hlive k (List.mem_cons_self _ _)
      rw [hs] at hob
      injection hob with hob
      subst hob
      by_cases hc : inc.isCompatibleWith best = true
      · rw [if_pos hc]
        set tp := (if best.type = OrderType.MARKET then
            (if inc.type = OrderType.MARKET then b.lastTradePrice else inc.price)
          else best.price) with htp
        set q := min inc.remainingQuantity best.remainingQuantity with hqd
        set best' := fillApply best q with hbd
        set inc2 := fillApply inc q with hid
        set tr := (if inc.side = OrderSide.BUY then Trade.mk inc.orderId best.orderId tp q
          else Trade.mk best.orderId inc.orderId tp q) with htrd
        set b1 := ({ b with store := storeSet b.store k.id best', totalTrades := b.totalTrades + 1, totalVolume := b.totalVolume + q, lastTradePrice := tp } : OrderBook) with hb1
        have hmk : makerId inc.side tr = best.orderId := by
          rw [htrd]
          by_cases hsd : inc.side = OrderSide.BUY
          · rw [if_pos hsd]
            simp [makerId, hsd]
          · rw [if_neg hsd]
            simp [makerId, hsd]
        have htrp : tr.price = tp := by
          rw [htrd]
          by_cases hsd : inc.side = OrderSide.BUY
          · rw [if_pos hsd]
          · rw [if_neg hsd]
        by_cases hq : best'.remainingQuantity > 0
        · rw [if_pos hq]
          show PriceOk b1.store inc.type inc.price inc.side b.lastTradePrice ([] ++ [tr])
          rw [List.nil_append]
          refine ⟨⟨best', ?_, ?_⟩, trivial⟩
          · rw [hmk, hobid]
            exact storeGet_storeSet_self _ _ _
          · rw [htrp, htp, hbd]
            rfl
        · rw [if_neg hq]
          have hacc := matchLoop_acc rest (removeFromOrderBook b1 best.orderId) inc2 ([] ++ [tr])
          rw [hacc.2.1, hacc.2.2.2, List.nil_append]
          show PriceOk (matchLoop (removeFromOrderBook b1 best.orderId) inc2 rest []).2.1.store
            inc.type inc.price inc.side b.lastTradePrice ([tr] ++ (matchLoop (removeFromOrderBook b1 best.orderId) inc2 rest []).2.2.2)
          rw [List.cons_append, List.nil_append]
          constructor
          · refine ⟨best', ?_, ?_⟩
            · rw [hmk, hobid]
              rw [matchLoop_store_local rest _ _ _ k.id (by
                  intro hmem
                  rcases List.mem_map.mp hmem with ⟨k', hk', hk'id⟩
                  exact hnd.1 ⟨k', hk', hk'id⟩),
                removeFromOrderBook_store]
              exact storeGet_storeSet_self _ _ _
            · rw [htrp, htp, hbd]
              rfl
          · have hklr : KeysHaveIds (removeFromOrderBook b1 best.orderId).store rest := by
              intro k' hk'
              obtain ⟨o', ho', ho'id⟩ := hlive k' (List.mem_cons_of_mem _ hk')
              by_cases hx : k'.id = k.id
              · refine ⟨best', ?_, ?_⟩
                · rw [removeFromOrderBook_store, hx]
                  exact storeGet_storeSet_self _ _ _
                · rw [hbd]
                  show best.orderId = k'.id
                  rw [hobid, hx]
              · refine ⟨o', ?_, ho'id⟩
                rw [removeFromOrderBook_store]
                exact (storeGet_storeSet_ne _ _ _ _ hx).trans ho'
            have hih := ih (removeFromOrderBook b1 best.orderId) inc2 hklr hnd.2
            have hltp : (removeFromOrderBook b1 best.orderId).lastTradePrice = tr.price := by
              rw [removeFromOrderBook_ltp, htrp]
            rw [hltp] at hih
            exact hih
      · rw [if_neg hc]
        simp [PriceOk]

end OME

namespace OME

theorem matchLoop_consume (l1 : List Key) :
    ∀ (b : OrderBook) (inc : Order) (acc : List Trade) (kA kB : Key) (l2 l3 : List Key),
    ((l1 ++ (kA :: (l2 ++ (kB :: l3)))).map Key.id).Nodup →
    storeGet (matchLoop b inc (l1 ++ (kA :: (l2 ++ (kB :: l3)))) acc).2.1.store kB.id ≠
      storeGet b.store kB.id →
    ∃ A', storeGet (matchLoop b inc (l1 ++ (kA :: (l2 ++ (kB :: l3)))) acc).2.1.store kA.id = some A' ∧
      A'.remainingQuantity = 0 := by
  induction l1 with
  | nil =>
    intro b inc acc kA kB l2 l3 hnd hB
    rw [List.nil_append] at hnd hB ⊢
    rw [List.map_cons, List.nodup_cons] at hnd
    have hAnotrest : kA.id ∉ (l2 ++ (kB :: l3)).map Key.id := hnd.1
    have hABne : kB.id ≠ kA.id := by
      intro hh
      apply hAnotrest
      rw [← hh]
      exact List.mem_map_of_mem Key.id (by simp)
    rw [matchLoop] at hB ⊢
    by_cases h1 : inc.remainingQuantity ≤ 0
    · rw [if_pos h1] at hB ⊢
      exact absurd rfl hB
    rw [if_neg h1] at hB ⊢
    cases hs : storeGet b.store kA.id with
    | none =>
      rw [hs] at hB
      dsimp only at hB
      exact absurd rfl hB
    | some best =>
      rw [hs] at hB
      dsimp only at hB ⊢
      by_cases hc : inc.isCompatibleWith best = true
      · rw [if_pos hc] at hB ⊢
        have hq0 : 0 < min inc.remainingQuantity best.remainingQuantity := by
          have := compat_facts _ _ hc
          omega
        set tp := (if best.type = OrderType.MARKET then
            (if inc.type = OrderType.MARKET then b.lastTradePrice else inc.price)
          else best.price) with htp
        set q := min inc.remainingQuantity best.remainingQuantity with hqd
        set best' := fillApply best q with hbd
        set inc2 := fillApply inc q with hid
        set tr := (if inc.side = OrderSide.BUY then Trade.mk inc.orderId best.orderId tp q
          else Trade.mk best.orderId inc.orderId tp q) with htrd
        set b1 := ({ b with store := storeSet b.store kA.id best', totalTrades := b.totalTrades + 1, totalVolume := b.totalVolume + q, lastTradePrice := tp } : OrderBook) with hb1
        by_cases hq : best'.remainingQuantity > 0
        · rw [if_pos hq] at hB ⊢
          exact absurd (storeGet_storeSet_ne _ _ _ _ hABne) hB
        · rw [if_neg hq] at hB ⊢
          refine ⟨best', ?_, ?_⟩
          · rw [matchLoop_store_local (l2 ++ (kB :: l3)) _ _ _ kA.id hAnotrest,
              removeFromOrderBook_store]
            exact storeGet_storeSet_self _ _ _
          · rw [hbd] at hq ⊢
            simp only [fillApply] at hq ⊢
            have := compat_facts _ _ hc
            omega
      · rw [if_neg hc] at hB
        exact absurd rfl hB
  | cons c l1' ih =>
    intro b inc acc kA kB l2 l3 hnd hB
    rw [List.cons_append] at hnd hB ⊢
    rw [List.map_cons, List.nodup_cons] at hnd
    have hBne : kB.id ≠ c.id := by
      intro hh
      apply hnd.1
      rw [← hh]
      exact List.mem_map_of_mem Key.id (by simp)
    rw [matchLoop] at hB ⊢
    by_cases h1 : inc.remainingQuantity ≤ 0
    · rw [if_pos h1] at hB ⊢
      exact absurd rfl hB
    rw [if_neg h1] at hB ⊢
    cases hs : storeGet b.store c.id with
    | none =>
      rw [hs] at hB
      dsimp only at hB
      exact absurd rfl hB
    | some best =>
      rw [hs] at hB
      dsimp only at hB ⊢
      by_cases hc : inc.isCompatibleWith best = true
      · rw [if_pos hc] at hB ⊢
        set tp := (if best.type = OrderType.MARKET then
            (if inc.type = OrderType.MARKET then b.lastTradePrice else inc.price)
          else best.price) with htp
        set q := min inc.remainingQuantity best.remainingQuantity with hqd
        set best' := fillApply best q with hbd
        set inc2 := fillApply inc q with hid
        set tr := (if inc.side = OrderSide.BUY then Trade.mk inc.orderId best.orderId tp q
          else Trade.mk best.orderId inc.orderId tp q) with htrd
        set b1 := ({ b with store := storeSet b.store c.id best', totalTrades := b.totalTrades + 1, totalVolume := b.totalVolume + q, lastTradePrice := tp } : OrderBook) with hb1
        by_cases hq : best'.remainingQuantity > 0
        · rw [if_pos hq] at hB ⊢
          exact absurd (storeGet_storeSet_ne _ _ _ _ hBne) hB
        · rw [if_neg hq] at hB ⊢
          refine ih (removeFromOrderBook b1 best.orderId) inc2 (acc ++ [tr]) kA kB l2 l3
            hnd.2 ?_
          intro hB2
          apply hB
          rw [hB2, removeFromOrderBook_store]
          exact storeGet_storeSet_ne _ _ _ _ hBne
      · rw [if_neg hc] at hB
        exact absurd rfl hB

end OME

namespace OME

theorem pairwise_before {α : Type} (R : α → α → Prop) (l : List α) (hp : l.Pairwise R)
    (a c : α) (ha : a ∈ l) (hc : c ∈ l) (hac : a ≠ c) (hnR : ¬ R c a) :
    ∃ l1 l2 l3, l = l1 ++ (a :: (l2 ++ (c :: l3))) := by
  induction l with
  | nil => cases ha
  | cons h t ih =>
    rw [List.pairwise_cons] at hp
    rcases List.mem_cons.mp ha with rfl | hat
    · have hct : c ∈ t := by
        rcases List.mem_cons.mp hc with rfl | hct
        · exact absurd rfl hac
        · exact hct
      obtain ⟨s, t', rfl⟩ := List.append_of_mem hct
      exact ⟨[], s, t', by simp⟩
    · rcases List.mem_cons.mp hc with rfl | hct
      · exact absurd (hp.1 a hat) hnR
      · obtain ⟨l1, l2, l3, rfl⟩ := ih hp.2 hat hct
        exact ⟨h :: l1, l2, l3, by simp⟩

theorem sellLess_tie (kA kB : Key) (hp : kA.price = kB.price)
    (ht : kA.timestamp < kB.timestamp) : sellLess kB kA = true := by
  unfold sellLess
  rw [hp]
  simp
  omega

theorem buyLess_tie (kA kB : Key) (hp : kA.price = kB.price)
    (ht : kA.timestamp < kB.timestamp) : buyLess kB kA = true := by
  unfold buyLess
  rw [hp]
  simp
  omega

/-- C6: price-time priority inside one matching pass.  If two resting orders
A and B sit on the side the incoming order consumes, at the same price with
A's timestamp earlier, and the pass touched B's order object at all, then A
was completely filled (remaining quantity zero).  The heap-order hypotheses
(sortedness, live distinct ids) hold for every book the code builds. -/
theorem time_priority (b : OrderBook) (inc : Order) (kA kB : Key)
    (hA : kA ∈ oppKeys b inc) (hB : kB ∈ oppKeys b inc)
    (hsort : oppSorted b inc) (hnd : ((oppKeys b inc).map Key.id).Nodup)
    (hprice : kA.price = kB.price) (hts : kA.timestamp < kB.timestamp)
    (hchanged : storeGet (matchOrder b inc).1.store kB.id ≠ storeGet b.store kB.id) :
    ∃ A', storeGet (matchOrder b inc).1.store kA.id = some A' ∧ A'.remainingQuantity = 0 := by
  have hABne : kA ≠ kB := by
    intro hh
    rw [hh] at hts
    exact lt_irrefl _ hts
  by_cases hsd : inc.side = OrderSide.BUY
  · rw [oppKeys, if_pos hsd] at hA hB hnd
    rw [oppSorted, if_pos hsd] at hsort
    rw [matchOrder, if_pos hsd] at hchanged ⊢
    dsimp only at hchanged ⊢
    obtain ⟨l1, l2, l3, hsplit⟩ := pairwise_before _ _ hsort kA kB hA hB hABne
      (by rw [sellLess_tie kA kB hprice hts]; simp)
    rw [hsplit] at hchanged hnd ⊢
    exact matchLoop_consume l1 b inc [] kA kB l2 l3 hnd hchanged
  · rw [oppKeys, if_neg hsd] at hA hB hnd
    rw [oppSorted, if_neg hsd] at hsort
    rw [matchOrder, if_neg hsd] at hchanged ⊢
    dsimp only at hchanged ⊢
    obtain ⟨l1, l2, l3, hsplit⟩ := pairwise_before _ _ hsort kA kB hA hB hABne
      (by rw [buyLess_tie kA kB hprice hts]; simp)
    rw [hsplit] at hchanged hnd ⊢
    exact matchLoop_consume l1 b inc [] kA kB l2 l3 hnd hchanged

/-- C1 (amended): every trade of a matching pass is priced at the maker's
posted price; when the maker is MARKET, at the taker's price for a LIMIT
taker and at the last-trade price in effect (initially 0) for a MARKET
taker — including the both-MARKET case with no prior trade, which trades at
price 0 instead of rejecting. -/
theorem trade_price_policy (b : OrderBook) (inc : Order)
    (hlive : KeysHaveIds b.store (oppKeys b inc))
    (hnd : ((oppKeys b inc).map Key.id).Nodup) :
    PriceOk (matchOrder b inc).1.store inc.type inc.price inc.side b.lastTradePrice
      (matchOrder b inc).2.2 := by
  by_cases hsd : inc.side = OrderSide.BUY
  · rw [oppKeys, if_pos hsd] at hlive hnd
    rw [matchOrder, if_pos hsd]
    dsimp only
    exact matchLoop_priceOk b.sellOrders b inc hlive hnd
  · rw [oppKeys, if_neg hsd] at hlive hnd
    rw [matchOrder, if_neg hsd]
    dsimp only
    exact matchLoop_priceOk b.buyOrders b inc hlive hnd

end OME

namespace OME

theorem avlInsert_mem_self (less : StopKey → StopKey → Bool) (x : StopKey) (l : List StopKey)
    (hne : ∀ y ∈ l, less x y = true ∨ less y x = true) : x ∈ avlInsert less x l := by
  induction l with
  | nil => simp [avlInsert]
  | cons y t ih =>
    unfold avlInsert
    by_cases h1 : less x y = true
    · rw [if_pos h1]
      exact List.mem_cons_self _ _
    · rw [if_neg h1]
      rcases hne y (List.mem_cons_self _ _) with hy | hy
      · exact absurd hy h1
      · rw [if_pos hy]
        exact List.mem_cons_of_mem _ (ih fun z hz => hne z (List.mem_cons_of_mem _ hz))

/-- C3 (amended): a STOP_LOSS order is inserted into the stop tree of its
side keyed by trigger price (provided no resting stop of that side already
has an equal trigger, which the AVL insert silently drops), is recorded in
orderMap and userOrders, and addOrder returns no trades — but addToOrderBook
also pushes the stop onto the priority queue of its side, where it can match
as a resting order while still PENDING. -/
theorem stop_insert_spec (b : OrderBook) (o : Order) (hsym : o.symbol = b.symbol)
    (hstop : o.type = OrderType.STOP_LOSS) :
    ∃ b', addOrder b o = some (b', []) ∧
      o.orderId ∈ b'.orderMapIds ∧
      (⟨o.orderId, o.price, o.timestamp⟩ : Key) ∈
        (if o.side = OrderSide.BUY then b'.buyOrders else b'.sellOrders) ∧
      (o.side = OrderSide.BUY → (∀ sk ∈ b.buyStopLossOrders, sk.trigger ≠ o.triggerPrice) →
        (⟨o.orderId, o.triggerPrice⟩ : StopKey) ∈ b'.buyStopLossOrders) ∧
      (o.side = OrderSide.SELL → (∀ sk ∈ b.sellStopLossOrders, sk.trigger ≠ o.triggerPrice) →
        (⟨o.orderId, o.triggerPrice⟩ : StopKey) ∈ b'.sellStopLossOrders) := by
  by_cases hsd : o.side = OrderSide.BUY
  · refine ⟨addToOrderBook { b with buyStopLossOrders := avlInsert stopBuyLess ⟨o.orderId, o.triggerPrice⟩ b.buyStopLossOrders } o, ?_, ?_, ?_, ?_, ?_⟩
    · unfold addOrder
      rw [if_neg (by simp [hsym]), if_pos hstop]
      dsimp only
      rw [if_pos hsd]
    · unfold addToOrderBook
      dsimp only
      rw [if_pos hsd]
      dsimp only
      split_ifs with h
      · exact h
      · exact List.mem_cons_self _ _
    · rw [if_pos hsd]
      unfold addToOrderBook
      dsimp only
      rw [if_pos hsd]
      exact pqInsert_mem_self _ _ _
    · intro _ hfree
      unfold addToOrderBook
      dsimp only
      rw [if_pos hsd]
      dsimp only
      apply avlInsert_mem_self
      intro y hy
      have hyy := hfree y hy
      unfold stopBuyLess
      simp
      omega
    · intro hsell _
      rw [hsd] at hsell
      cases hsell
  · have hsell : o.side = OrderSide.SELL := by
      cases h2 : o.side
      · exact absurd h2 hsd
      · rfl
    refine ⟨addToOrderBook { b with sellStopLossOrders := avlInsert stopSellLess ⟨o.orderId, o.triggerPrice⟩ b.sellStopLossOrders } o, ?_, ?_, ?_, ?_, ?_⟩
    · unfold addOrder
      rw [if_neg (by simp [hsym]), if_pos hstop]
      dsimp only
      rw [if_neg hsd]
    · unfold addToOrderBook
      dsimp only
      rw [if_neg hsd]
      dsimp only
      split_ifs with h
      · exact h
      · exact List.mem_cons_self _ _
    · rw [if_neg hsd]
      unfold addToOrderBook
      dsimp only
      rw [if_neg hsd]
      exact pqInsert_mem_self _ _ _
    · intro hbuy _
      exact absurd hbuy hsd
    · intro _ hfree
      unfold addToOrderBook
      dsimp only
      rw [if_neg hsd]
      dsimp only
      apply avlInsert_mem_self
      intro y hy
      have hyy := hfree y hy
      unfold stopSellLess
      simp
      omega

end OME

namespace OME

theorem addOrder_nonstop (b : OrderBook) (o : Order) (hsym : o.symbol = b.symbol)
    (hns : o.type ≠ OrderType.STOP_LOSS) :
    addOrder b o = some ((if (matchOrder b o).2.1.remainingQuantity > 0
        then addToOrderBook (matchOrder b o).1 (matchOrder b o).2.1 else (matchOrder b o).1),
      (matchOrder b o).2.2) := by
  unfold addOrder
  rw [if_neg (by simp [hsym]), if_neg hns]
  dsimp only
  cases h : (matchOrder b o).2.2.getLast? with
  | none => rfl
  | some t => rfl

/-- C2 (amended): a MARKET order with quantity left after the matching loop
is added to the book exactly like a LIMIT order — it rests in orderMap and
its side's queue with status PENDING (no fills) or PARTIAL_FILL (some
fills); it is never discarded and never marked REJECTED. -/
theorem market_remainder_rests (b : OrderBook) (o : Order)
    (hsym : o.symbol = b.symbol) (hmkt : o.type = OrderType.MARKET)
    (hst : o.status = OrderStatus.PENDING) :
    ∃ b' trades, addOrder b o = some (b', trades) ∧
      ((matchOrder b o).2.1.remainingQuantity > 0 →
        o.orderId ∈ b'.orderMapIds ∧
        ∃ st, storeGet b'.store o.orderId = some st ∧
          (st.status = OrderStatus.PENDING ∨ st.status = OrderStatus.PARTIAL_FILL)) := by
  have hns : o.type ≠ OrderType.STOP_LOSS := by
    rw [hmkt]
    intro hh
    cases hh
  refine ⟨_, _, addOrder_nonstop b o hsym hns, ?_⟩
  intro hrem
  rw [if_pos hrem]
  set o' := (matchOrder b o).2.1 with ho'
  have hev : IncEvolved o o' := by
    rw [ho', matchOrder]
    by_cases hsd : o.side = OrderSide.BUY
    · rw [if_pos hsd]
      exact matchLoop_inc_evolved _ _ _ _
    · rw [if_neg hsd]
      exact matchLoop_inc_evolved _ _ _ _
  constructor
  · unfold addToOrderBook
    dsimp only
    by_cases hsd2 : o'.side = OrderSide.BUY
    · rw [if_pos hsd2]
      dsimp only
      split_ifs with h
      · exact hev.1 ▸ h
      · rw [← hev.1]
        exact List.mem_cons_self _ _
    · rw [if_neg hsd2]
      dsimp only
      split_ifs with h
      · exact hev.1 ▸ h
      · rw [← hev.1]
        exact List.mem_cons_self _ _
  · refine ⟨o', ?_, ?_⟩
    · unfold addToOrderBook
      dsimp only
      by_cases hsd2 : o'.side = OrderSide.BUY
      · rw [if_pos hsd2]
        dsimp only
        rw [← hev.1]
        exact storeGet_storeSet_self _ _ _
      · rw [if_neg hsd2]
        dsimp only
        rw [← hev.1]
        exact storeGet_storeSet_self _ _ _
    · rcases hev.2.2.2.2.2.2.2.2.2.2 with heq | hrule
      · left
        rw [heq, hst]
      · right
        rw [hrule, if_neg (by omega)]

end OME


namespace OME

theorem bookInv_add (b : OrderBook) (o : Order) (hinv : BookInv b) (hvalid : ValidOrder o)
    (hfresh : storeGet b.store o.orderId = none) (hsym : o.symbol = b.symbol) :
    BookInv (if (matchOrder b o).2.1.remainingQuantity > 0
      then addToOrderBook (matchOrder b o).1 (matchOrder b o).2.1 else (matchOrder b o).1) := by
  obtain ⟨ihB, ihS, ihBS, ihSS, ihND, ihNC⟩ := hinv
  obtain ⟨hv1, hv2, hv3, hv4, hv5, hv6, hv7, hv8⟩ := hvalid
  have hdisj : List.Disjoint (b.buyOrders.map Key.id) (b.sellOrders.map Key.id) :=
    List.disjoint_of_nodup_append ihND
  by_cases hsd : o.side = OrderSide.BUY
  · rw [matchOrder, if_pos hsd]
    dsimp only
    have hsuffix := matchLoop_suffix b.sellOrders b o []
    have hfieldsL := matchLoop_fields b.sellOrders b o []
    obtain ⟨he1, he2, he3, he4, he5, he6, he7, he8, he9, herem, hestat⟩ :=
      matchLoop_inc_evolved b.sellOrders b o []
    have hselllive : KeysLiveSide (matchLoop b o b.sellOrders []).2.1
        (matchLoop b o b.sellOrders []).1 OrderSide.SELL :=
      matchLoop_keysLive b.sellOrders b o [] OrderSide.SELL ihS ihND.of_append_right
    have hbuylocal : ∀ k ∈ b.buyOrders,
        storeGet (matchLoop b o b.sellOrders []).2.1.store k.id = storeGet b.store k.id := by
      intro k hk
      refine matchLoop_store_local b.sellOrders b o [] k.id ?_
      intro hmem
      exact hdisj (List.mem_map_of_mem _ hk) hmem
    have hfresh' : storeGet (matchLoop b o b.sellOrders []).2.1.store o.orderId = none :=
      (matchLoop_store_evolve b.sellOrders b o [] o.orderId).2 hfresh
    have hpres : ∀ k ∈ b.sellOrders, (storeGet b.store k.id).isSome := by
      intro k hk
      obtain ⟨ob, hob, _⟩ := ihS k hk
      rw [hob]
      rfl
    by_cases hrem : (matchLoop b o b.sellOrders []).2.2.1.remainingQuantity > 0
    · rw [if_pos hrem]
      have ho'side : (matchLoop b o b.sellOrders []).2.2.1.side = OrderSide.BUY := he5.trans hsd
      have ho'stat : (matchLoop b o b.sellOrders []).2.2.1.status ≠ OrderStatus.FILLED ∧
          (matchLoop b o b.sellOrders []).2.2.1.status ≠ OrderStatus.CANCELLED := by
        rcases hestat with heq | hrule
        · rw [heq, hv8]
          exact ⟨(fun hh => by cases hh), (fun hh => by cases hh)⟩
        · rw [hrule, if_neg (by omega)]
          exact ⟨(fun hh => by cases hh), (fun hh => by cases hh)⟩
      unfold addToOrderBook
      rw [if_pos ho'side]
      rw [hfieldsL.1]
      refine ⟨?_, ?_, ?_, ?_, ?_, ?_⟩
      · intro k hk
        rcases (pqInsert_mem _ _ _ _).mp hk with rfl | hkold
        · refine ⟨(matchLoop b o b.sellOrders []).2.2.1, storeGet_storeSet_self _ _ _,
            rfl, rfl, ho'side, ?_, by omega, ho'stat.1, ho'stat.2⟩
          show (matchLoop b o b.sellOrders []).2.2.1.symbol = _
          rw [he3, hsym]
          exact (hfieldsL.2.2.2.2).symm
        · obtain ⟨ob, hob, hb1, hb2, hb3, hb4, hb5, hb6, hb7⟩ := ihB k hkold
          have hkne : k.id ≠ (matchLoop b o b.sellOrders []).2.2.1.orderId := by
            rw [he1]
            intro hh
            rw [hh, hfresh] at hob
            cases hob
          refine ⟨ob, ?_, hb1, hb2, hb3, ?_, hb5, hb6, hb7⟩
          · exact (storeGet_storeSet_ne _ _ _ _ hkne).trans ((hbuylocal k hkold).trans hob)
          · rw [hb4]
            exact (hfieldsL.2.2.2.2).symm
      · intro k hk
        obtain ⟨ob, hob, hb1, hb2, hb3, hb4, hb5, hb6, hb7⟩ := hselllive k hk
        have hkne : k.id ≠ (matchLoop b o b.sellOrders []).2.2.1.orderId := by
          rw [he1]
          intro hh
          rw [hh, hfresh'] at hob
          cases hob
        exact ⟨ob, (storeGet_storeSet_ne _ _ _ _ hkne).trans hob,
          hb1, hb2, hb3, hb4, hb5, hb6, hb7⟩
      · exact pqInsert_sorted buyLess buyLess_asymm buyLess_shift _ _ ihBS
      · exact List.Pairwise.sublist hsuffix.sublist ihSS
      · have hperm : List.Perm ((pqInsert buyLess
            ⟨(matchLoop b o b.sellOrders []).2.2.1.orderId,
             (matchLoop b o b.sellOrders []).2.2.1.price,
             (matchLoop b o b.sellOrders []).2.2.1.timestamp⟩ b.buyOrders).map Key.id ++
            (matchLoop b o b.sellOrders []).1.map Key.id)
            (((matchLoop b o b.sellOrders []).2.2.1.orderId :: b.buyOrders.map Key.id) ++
            (matchLoop b o b.sellOrders []).1.map Key.id) :=
          List.Perm.append_right _ ((pqInsert_perm _ _ _).map Key.id)
        rw [hperm.nodup_iff, List.cons_append, List.nodup_cons]
        constructor
        · rw [he1]
          intro hmem
          rcases List.mem_append.mp hmem with hmem | hmem
          · rcases List.mem_map.mp hmem with ⟨k, hk, hkid⟩
            obtain ⟨ob, hob, _⟩ := ihB k hk
            rw [hkid, hfresh] at hob
            cases hob
          · rcases List.mem_map.mp hmem with ⟨k, hk, hkid⟩
            obtain ⟨ob, hob, _⟩ := hselllive k hk
            rw [hkid, hfresh'] at hob
            cases hob
        · exact ihND.sublist (List.Sublist.append_left ((hsuffix.sublist).map Key.id) _)
      · intro kb ks hkb hks
        obtain ⟨tl, hl1⟩ : ∃ tl, (matchLoop b o b.sellOrders []).1 = ks :: tl := by
          cases hLl : (matchLoop b o b.sellOrders []).1 with
          | nil => rw [hLl] at hks; cases hks
          | cons a t =>
            rw [hLl] at hks
            injection hks with hks
            exact ⟨t, by rw [hks]⟩
        obtain ⟨best, hbest, hcomp⟩ := matchLoop_exit b.sellOrders b o [] hpres hrem ks tl hl1
        obtain ⟨ob, hob, hb1, hb2, hb3, hb4, hb5, hb6, hb7⟩ :=
          hselllive ks (by rw [hl1]; exact List.mem_cons_self _ _)
        rw [hob] at hbest
        injection hbest with hbest
        subst hbest
        have hfacts := compat_false_buy (matchLoop b o b.sellOrders []).2.2.1 ob
          (by rw [he3, hsym, hb4]; exact (hfieldsL.2.2.2.2).symm)
          ho'side hb3 hrem hb5 ho'stat.1 ho'stat.2 hb6 hb7 hcomp
        have hksmem : ks ∈ b.sellOrders :=
          hsuffix.subset (by rw [hl1]; exact List.mem_cons_self _ _)
        rcases pqInsert_head buyLess _ b.buyOrders with hh | hh
        · rw [hh] at hkb
          injection hkb with hkb
          rw [← hkb]
          show (matchLoop b o b.sellOrders []).2.2.1.price < ks.price
          rw [← hb2]
          exact hfacts.2.2
        · rw [hh] at hkb
          obtain ⟨ks0, hks0⟩ : ∃ ks0, b.sellOrders.head? = some ks0 := by
            cases hbs : b.sellOrders with
            | nil => rw [hbs] at hksmem; cases hksmem
            | cons a t => exact ⟨a, rfl⟩
          exact lt_of_lt_of_le (ihNC kb ks0 hkb hks0)
            (sell_head_le b.sellOrders ihSS ks0 ks hks0 hksmem)
    · rw [if_neg hrem]
      refine ⟨?_, ?_, ?_, ?_, ?_, ?_⟩
      · intro k hk
        have hk' : k ∈ b.buyOrders := by
          rw [← hfieldsL.1]
          exact hk
        obtain ⟨ob, hob, hb1, hb2, hb3, hb4, hb5, hb6, hb7⟩ := ihB k hk'
        refine ⟨ob, (hbuylocal k hk').trans hob, hb1, hb2, hb3, ?_, hb5, hb6, hb7⟩
        rw [hb4]
        exact (hfieldsL.2.2.2.2).symm
      · exact hselllive
      · show HeapSorted buyLess (matchLoop b o b.sellOrders []).2.1.buyOrders
        rw [hfieldsL.1]
        exact ihBS
      · exact List.Pairwise.sublist hsuffix.sublist ihSS
      · show ((matchLoop b o b.sellOrders []).2.1.buyOrders.map Key.id ++
          (matchLoop b o b.sellOrders []).1.map Key.id).Nodup
        rw [hfieldsL.1]
        exact ihND.sublist (List.Sublist.append_left ((hsuffix.sublist).map Key.id) _)
      · intro kb ks hkb hks
        have hkb' : b.buyOrders.head? = some kb := by
          rw [← hfieldsL.1]
          exact hkb
        have hksmem : ks ∈ b.sellOrders := by
          refine hsuffix.subset ?_
          cases hLl : (matchLoop b o b.sellOrders []).1 with
          | nil => rw [hLl] at hks; cases hks
          | cons a t =>
            rw [hLl] at hks
            injection hks with hks
            rw [hks]
            exact List.mem_cons_self _ _
        obtain ⟨ks0, hks0⟩ : ∃ ks0, b.sellOrders.head? = some ks0 := by
          cases hbs : b.sellOrders with
          | nil => rw [hbs] at hksmem; cases hksmem
          | cons a t => exact ⟨a, rfl⟩
        exact lt_of_lt_of_le (ihNC kb ks0 hkb' hks0)
          (sell_head_le b.sellOrders ihSS ks0 ks hks0 hksmem)
  · have hsell : o.side = OrderSide.SELL := by
      cases h2 : o.side
      · exact absurd h2 hsd
      · rfl
    rw [matchOrder, if_neg hsd]
    dsimp only
    have hsuffix := matchLoop_suffix b.buyOrders b o []
    have hfieldsL := matchLoop_fields b.buyOrders b o []
    obtain ⟨he1, he2, he3, he4, he5, he6, he7, he8, he9, herem, hestat⟩ :=
      matchLoop_inc_evolved b.buyOrders b o []
    have hbuylive : KeysLiveSide (matchLoop b o b.buyOrders []).2.1
        (matchLoop b o b.buyOrders []).1 OrderSide.BUY :=
      matchLoop_keysLive b.buyOrders b o [] OrderSide.BUY ihB ihND.of_append_left
    have hselllocal : ∀ k ∈ b.sellOrders,
        storeGet (matchLoop b o b.buyOrders []).2.1.store k.id = storeGet b.store k.id := by
      intro k hk
      refine matchLoop_store_local b.buyOrders b o [] k.id ?_
      intro hmem
      exact hdisj hmem (List.mem_map_of_mem _ hk)
    have hfresh' : storeGet (matchLoop b o b.buyOrders []).2.1.store o.orderId = none :=
      (matchLoop_store_evolve b.buyOrders b o [] o.orderId).2 hfresh
    have hpres : ∀ k ∈ b.buyOrders, (storeGet b.store k.id).isSome := by
      intro k hk
      obtain ⟨ob, hob, _⟩ := ihB k hk
      rw [hob]
      rfl
    by_cases hrem : (matchLoop b o b.buyOrders []).2.2.1.remainingQuantity > 0
    · rw [if_pos hrem]
      have ho'side : (matchLoop b o b.buyOrders []).2.2.1.side = OrderSide.SELL := he5.trans hsell
      have ho'nb : ¬ (matchLoop b o b.buyOrders []).2.2.1.side = OrderSide.BUY := by
        rw [ho'side]
        intro hh
        cases hh
      have ho'stat : (matchLoop b o b.buyOrders []).2.2.1.status ≠ OrderStatus.FILLED ∧
          (matchLoop b o b.buyOrders []).2.2.1.status ≠ OrderStatus.CANCELLED := by
        rcases hestat with heq | hrule
        · rw [heq, hv8]
          exact ⟨(fun hh => by cases hh), (fun hh => by cases hh)⟩
        · rw [hrule, if_neg (by omega)]
          exact ⟨(fun hh => by cases hh), (fun hh => by cases hh)⟩
      unfold addToOrderBook
      rw [if_neg ho'nb]
      rw [hfieldsL.2.1]
      refine ⟨?_, ?_, ?_, ?_, ?_, ?_⟩
      · intro k hk
        obtain ⟨ob, hob, hb1, hb2, hb3, hb4, hb5, hb6, hb7⟩ := hbuylive k hk
        have hkne : k.id ≠ (matchLoop b o b.buyOrders []).2.2.1.orderId := by
          rw [he1]
          intro hh
          rw [hh, hfresh'] at hob
          cases hob
        exact ⟨ob, (storeGet_storeSet_ne _ _ _ _ hkne).trans hob,
          hb1, hb2, hb3, hb4, hb5, hb6, hb7⟩
      · intro k hk
        rcases (pqInsert_mem _ _ _ _).mp hk with rfl | hkold
        · refine ⟨(matchLoop b o b.buyOrders []).2.2.1, storeGet_storeSet_self _ _ _,
            rfl, rfl, ho'side, ?_, by omega, ho'stat.1, ho'stat.2⟩
          show (matchLoop b o b.buyOrders []).2.2.1.symbol = _
          rw [he3, hsym]
          exact (hfieldsL.2.2.2.2).symm
        · obtain ⟨ob, hob, hb1, hb2, hb3, hb4, hb5, hb6, hb7⟩ := ihS k hkold
          have hkne : k.id ≠ (matchLoop b o b.buyOrders []).2.2.1.orderId := by
            rw [he1]
            intro hh
            rw [hh, hfresh] at hob
            cases hob
          refine ⟨ob, ?_, hb1, hb2, hb3, ?_, hb5, hb6, hb7⟩
          · exact (storeGet_storeSet_ne _ _ _ _ hkne).trans ((hselllocal k hkold).trans hob)
          · rw [hb4]
            exact (hfieldsL.2.2.2.2).symm
      · show HeapSorted buyLess (matchLoop b o b.buyOrders []).1
        exact List.Pairwise.sublist hsuffix.sublist ihBS
      · exact pqInsert_sorted sellLess sellLess_asymm sellLess_shift _ _ ihSS
      · have hperm : List.Perm ((matchLoop b o b.buyOrders []).1.map Key.id ++
            (pqInsert sellLess
            ⟨(matchLoop b o b.buyOrders []).2.2.1.orderId,
             (matchLoop b o b.buyOrders []).2.2.1.price,
             (matchLoop b o b.buyOrders []).2.2.1.timestamp⟩ b.sellOrders).map Key.id)
            ((matchLoop b o b.buyOrders []).1.map Key.id ++
            ((matchLoop b o b.buyOrders []).2.2.1.orderId :: b.sellOrders.map Key.id)) :=
          List.Perm.append_left _ ((pqInsert_perm _ _ _).map Key.id)
        rw [hperm.nodup_iff]
        rw [List.nodup_append]
        have hsub : ((matchLoop b o b.buyOrders []).1.map Key.id).Sublist
            (b.buyOrders.map Key.id) := (hsuffix.sublist).map Key.id
        have hold := ihND
        rw [List.nodup_append] at hold
        refine ⟨hold.1.sublist hsub, ?_, ?_⟩
        · rw [List.nodup_cons]
          constructor
          · intro hmem
            rcases List.mem_map.mp hmem with ⟨k, hk, hkid⟩
            obtain ⟨ob, hob, _⟩ := ihS k hk
            rw [hkid, he1, hfresh] at hob
            cases hob
          · exact hold.2.1
        · intro a ha
          rw [List.mem_cons]
          rintro (rfl | hmem)
          · rcases List.mem_map.mp ha with ⟨k, hk, hkid⟩
            obtain ⟨ob, hob, _⟩ := hbuylive k hk
            rw [hkid, he1, hfresh'] at hob
            cases hob
          · exact hold.2.2 (hsub.subset ha) hmem
      · intro kb ks hkb hks
        obtain ⟨tl, hl1⟩ : ∃ tl, (matchLoop b o b.buyOrders []).1 = kb :: tl := by
          cases hLl : (matchLoop b o b.buyOrders []).1 with
          | nil => rw [hLl] at hkb; cases hkb
          | cons a t =>
            rw [hLl] at hkb
            injection hkb with hkb
            exact ⟨t, by rw [hkb]⟩
        obtain ⟨best, hbest, hcomp⟩ := matchLoop_exit b.buyOrders b o [] hpres hrem kb tl hl1
        obtain ⟨ob, hob, hb1, hb2, hb3, hb4, hb5, hb6, hb7⟩ :=
          hbuylive kb (by rw [hl1]; exact List.mem_cons_self _ _)
        rw [hob] at hbest
        injection hbest with hbest
        subst hbest
        have hfacts := compat_false_sell (matchLoop b o b.buyOrders []).2.2.1 ob
          (by rw [he3, hsym, hb4]; exact (hfieldsL.2.2.2.2).symm)
          ho'side hb3 hrem hb5 ho'stat.1 ho'stat.2 hb6 hb7 hcomp
        have hkbmem : kb ∈ b.buyOrders :=
          hsuffix.subset (by rw [hl1]; exact List.mem_cons_self _ _)
        rcases pqInsert_head sellLess _ b.sellOrders with hh | hh
        · rw [hh] at hks
          injection hks with hks
          rw [← hks]
          show kb.price < (matchLoop b o b.buyOrders []).2.2.1.price
          rw [← hb2]
          exact hfacts.2.2
        · rw [hh] at hks
          obtain ⟨kb0, hkb0⟩ : ∃ kb0, b.buyOrders.head? = some kb0 := by
            cases hbs : b.buyOrders with
            | nil => rw [hbs] at hkbmem; cases hkbmem
            | cons a t => exact ⟨a, rfl⟩
          exact lt_of_le_of_lt (buy_head_ge b.buyOrders ihBS kb0 kb hkb0 hkbmem)
            (ihNC kb0 ks hkb0 hks)
    · rw [if_neg hrem]
      refine ⟨?_, ?_, ?_, ?_, ?_, ?_⟩
      · exact hbuylive
      · intro k hk
        have hk' : k ∈ b.sellOrders := by
          rw [← hfieldsL.2.1]
          exact hk
        obtain ⟨ob, hob, hb1, hb2, hb3, hb4, hb5, hb6, hb7⟩ := ihS k hk'
        refine ⟨ob, (hselllocal k hk').trans hob, hb1, hb2, hb3, ?_, hb5, hb6, hb7⟩
        rw [hb4]
        exact (hfieldsL.2.2.2.2).symm
      · exact List.Pairwise.sublist hsuffix.sublist ihBS
      · show HeapSorted sellLess (matchLoop b o b.buyOrders []).2.1.sellOrders
        rw [hfieldsL.2.1]
        exact ihSS
      · show ((matchLoop b o b.buyOrders []).1.map Key.id ++
          (matchLoop b o b.buyOrders []).2.1.sellOrders.map Key.id).Nodup
        rw [hfieldsL.2.1]
        have hsub : ((matchLoop b o b.buyOrders []).1.map Key.id).Sublist
            (b.buyOrders.map Key.id) := (hsuffix.sublist).map Key.id
        exact ihND.sublist (hsub.append_right _)
      · intro kb ks hkb hks
        have hks' : b.sellOrders.head? = some ks := by
          rw [← hfieldsL.2.1]
          exact hks
        have hkbmem : kb ∈ b.buyOrders := by
          refine hsuffix.subset ?_
          cases hLl : (matchLoop b o b.buyOrders []).1 with
          | nil => rw [hLl] at hkb; cases hkb
          | cons a t =>
            rw [hLl] at hkb
            injection hkb with hkb
            rw [hkb]
            exact List.mem_cons_self _ _
        obtain ⟨kb0, hkb0⟩ : ∃ kb0, b.buyOrders.head? = some kb0 := by
          cases hbs : b.buyOrders with
          | nil => rw [hbs] at hkbmem; cases hkbmem
          | cons a t => exact ⟨a, rfl⟩
        exact lt_of_le_of_lt (buy_head_ge b.buyOrders ihBS kb0 kb hkb0 hkbmem)
          (ihNC kb0 ks hkb0 hks')

end OME

namespace OME

theorem reachLM_bookInv (b : OrderBook) (h : ReachLM b) : BookInv b := by
  induction h with
  | base s =>
    refine ⟨?_, ?_, ?_, ?_, ?_, ?_⟩
    · intro k hk
      cases hk
    · intro k hk
      cases hk
    · exact List.Pairwise.nil
    · exact List.Pairwise.nil
    · exact List.Pairwise.nil
    · intro kb ks hkb hks
      cases hkb
  | add b o b' tr hreach hvalid hns hfresh haddeq ih =>
    have hsym : o.symbol = b.symbol := by
      by_contra hne
      rw [addOrder, if_pos hne] at haddeq
      cases haddeq
    have heq := addOrder_nonstop b o hsym hns
    rw [heq] at haddeq
    injection haddeq with haddeq
    injection haddeq with h1 h2
    rw [← h1]
    exact bookInv_add b o ih hvalid hfresh hsym

/-- C5 (amended): for books built only from LIMIT and MARKET orders via
addOrder (no stop orders, no cancellations), whenever both priority queues
are non-empty the best bid is strictly below the best ask.  (A resting
STOP_LOSS order enters its side queue at its arbitrary price field without
matching and can cross the book, and a cancelled order blocks matching from
inside the queue, so the claim fails without this restriction.) -/
theorem no_crossed_book (b : OrderBook) (h : ReachLM b)
    (hb : b.buyOrders ≠ []) (hs : b.sellOrders ≠ []) :
    getBestBid b < getBestAsk b := by
  obtain ⟨-, -, -, -, -, hnc⟩ := reachLM_bookInv b h
  cases hbs : b.buyOrders with
  | nil => exact absurd hbs hb
  | cons kb t =>
    cases hss : b.sellOrders with
    | nil => exact absurd hss hs
    | cons ks t2 =>
      have hlt := hnc kb ks (by rw [hbs]; rfl) (by rw [hss]; rfl)
      rw [getBestBid, getBestAsk, hbs, hss]
      exact hlt

theorem no_crossed_book_witness : getBestBid c5wbook < getBestAsk c5wbook := by
  have r1 : ReachLM (step (emptyBook "S") exAsk100) :=
    ReachLM.add (emptyBook "S") exAsk100 (step (emptyBook "S") exAsk100) []
      (ReachLM.base "S") (by unfold ValidOrder; decide) (by decide) (by decide) (by decide)
  have r2 : ReachLM c5wbook :=
    ReachLM.add (step (emptyBook "S") exAsk100) exBid90 c5wbook []
      r1 (by unfold ValidOrder; decide) (by decide) (by decide) (by decide)
  exact no_crossed_book c5wbook r2 (by decide) (by decide)

end OME

namespace OME

end OME

namespace OME

theorem userGet_userAdd (us : List (String × List String)) (u id v : String) :
    userGet (userAdd us u id) v =
      if v = u then userGet us v ++ [id] else userGet us v := by
  induction us with
  | nil =>
    by_cases h : v = u
    · simp [userAdd, userGet, h]
    · simp [userAdd, userGet, h, show ¬ u = v from fun hh => h hh.symm]
  | cons p t ih =>
    obtain ⟨w, l⟩ := p
    by_cases hw : w = u
    · subst hw
      simp only [userAdd, if_pos rfl]
      by_cases hv : w = v
      · subst hv
        simp [userGet]
      · simp [userGet, hv, show ¬ v = w from fun hh => hv hh.symm]
    · simp only [userAdd, if_neg hw]
      by_cases hv : w = v
      · subst hv
        simp [userGet, show ¬ w = u from hw, show ¬ (w = u) from hw,
          show (w = w) from rfl]
      · simp only [userGet, if_neg hv]
        exact ih

theorem userAdd_keys (us : List (String × List String)) (u id : String) :
    (userAdd us u id).map Prod.fst =
      if u ∈ us.map Prod.fst then us.map Prod.fst else us.map Prod.fst ++ [u] := by
  induction us with
  | nil => simp [userAdd]
  | cons p t ih =>
    obtain ⟨w, l⟩ := p
    by_cases hw : w = u
    · subst hw
      simp [userAdd]
    · simp only [userAdd, if_neg hw, List.map_cons, List.mem_cons]
      rw [ih]
      by_cases hm : u ∈ t.map Prod.fst
      · rw [if_pos hm, if_pos (Or.inr hm)]
      · rw [if_neg hm, if_neg ?_]
        · rfl
        · rintro (h | h)
          · exact hw h.symm
          · exact hm h

theorem userAdd_mem (us : List (String × List String)) (u id : String) :
    ∀ p ∈ userAdd us u id, ∀ x ∈ p.2,
      (x = id ∧ p.1 = u) ∨ (∃ l, (p.1, l) ∈ us ∧ x ∈ l) := by
  induction us with
  | nil =>
    intro p hp x hx
    simp only [userAdd, List.mem_singleton] at hp
    subst hp
    simp only [List.mem_singleton] at hx
    exact Or.inl ⟨hx, rfl⟩
  | cons q t ih =>
    obtain ⟨w, l⟩ := q
    intro p hp x hx
    simp only [userAdd] at hp
    by_cases hw : w = u
    · rw [if_pos hw] at hp
      rcases List.mem_cons.mp hp with rfl | hpt
      · simp only [List.mem_append, List.mem_singleton] at hx
        rcases hx with hx | hx
        · exact Or.inr ⟨l, List.mem_cons_self _ _, hx⟩
        · exact Or.inl ⟨hx, hw⟩
      · exact Or.inr ⟨p.2, List.mem_cons_of_mem _ (by
          rw [show ((p.1, p.2) : String × List String) = p from rfl]
          exact hpt), hx⟩
    · rw [if_neg hw] at hp
      rcases List.mem_cons.mp hp with rfl | hpt
      · exact Or.inr ⟨l, List.mem_cons_self _ _, hx⟩
      · rcases ih p hpt x hx with h | ⟨l2, hl2, hxl2⟩
        · exact Or.inl h
        · exact Or.inr ⟨l2, List.mem_cons_of_mem _ hl2, hxl2⟩

theorem userGet_userRemove (us : List (String × List String)) (u x v : String) :
    userGet (userRemove us u x) v =
      if v = u then (userGet us v).filter (fun i => i ≠ x) else userGet us v := by
  induction us with
  | nil =>
    simp only [userRemove, List.map_nil, userGet]
    split_ifs <;> rfl
  | cons p t ih =>
    obtain ⟨w, l⟩ := p
    simp only [userRemove, List.map_cons] at ih ⊢
    by_cases hw : w = u
    · subst hw
      simp only [if_pos rfl]
      by_cases hv : w = v
      · subst hv
        simp [userGet]
      · simp only [userGet, if_neg hv]
        rw [if_neg (show ¬ v = w from fun hh => hv hh.symm)] at ih ⊢
        exact ih ▸ ih
    · rw [if_neg hw]
      by_cases hv : w = v
      · subst hv
        simp only [userGet, if_pos rfl]
        simp [hw]
      · simp only [userGet, if_neg hv]
        exact ih

theorem userRemove_keys (us : List (String × List String)) (u x : String) :
    (userRemove us u x).map Prod.fst = us.map Prod.fst := by
  induction us with
  | nil => rfl
  | cons p t ih =>
    obtain ⟨w, l⟩ := p
    simp only [userRemove, List.map_cons] at ih ⊢
    by_cases hw : w = u
    · rw [if_pos hw]
      simp only [List.map_cons]
      congr 1
    · rw [if_neg hw]
      simp only [List.map_cons]
      congr 1

theorem matchLoop_cancelled_top (b : OrderBook) (inc : Order) (k : Key) (rest : List Key)
    (acc : List Trade) (best : Order) (hs : storeGet b.store k.id = some best)
    (hc : best.status = OrderStatus.CANCELLED) :
    matchLoop b inc (k :: rest) acc = (k :: rest, b, inc, acc) := by
  have hcf : inc.isCompatibleWith best = false := by
    simp [Order.isCompatibleWith, hc]
  rw [matchLoop]
  by_cases hq : inc.remainingQuantity ≤ 0
  · rw [if_pos hq]
  · rw [if_neg hq, hs]
    dsimp only
    rw [if_neg (by simp [hcf])]

/-- C8 (amended): cancelOrder returns false and changes nothing when the id
is not in orderMap; for a mapped order — with no terminal-state check — it
returns true, sets the status to CANCELLED, removes the id from orderMap and
from its owner's user-index list, and leaves every priority-queue and
stop-tree entry in place; the stale heap entry is never removed: with the
cancelled order's key at the top of a heap, the matching loop finds it
incompatible and returns at once, neither popping it nor producing a trade,
so it blocks matching on that side. -/
theorem cancel_spec (b : OrderBook) (id : String) (hnd : b.orderMapIds.Nodup) :
    (id ∉ b.orderMapIds → cancelOrder b id = (b, false)) ∧
    (∀ o, id ∈ b.orderMapIds → storeGet b.store id = some o →
      (cancelOrder b id).2 = true ∧
      storeGet (cancelOrder b id).1.store id = some { o with status := OrderStatus.CANCELLED } ∧
      id ∉ (cancelOrder b id).1.orderMapIds ∧
      userGet (cancelOrder b id).1.userOrders o.userId =
        (userGet b.userOrders o.userId).filter (fun x => x ≠ id) ∧
      (cancelOrder b id).1.buyOrders = b.buyOrders ∧
      (cancelOrder b id).1.sellOrders = b.sellOrders ∧
      (cancelOrder b id).1.buyStopLossOrders = b.buyStopLossOrders ∧
      (cancelOrder b id).1.sellStopLossOrders = b.sellStopLossOrders ∧
      (∀ (inc : Order) (k : Key) (rest : List Key) (acc : List Trade), k.id = id →
        matchLoop (cancelOrder b id).1 inc (k :: rest) acc =
          (k :: rest, (cancelOrder b id).1, inc, acc))) := by
  constructor
  · intro h
    unfold cancelOrder
    rw [if_neg h]
  · intro o hmem hso
    unfold cancelOrder
    rw [if_pos hmem, hso]
    dsimp only
    refine ⟨rfl, ?_, ?_, ?_, ?_, ?_, ?_, ?_, ?_⟩
    · rw [removeFromOrderBook_store]
      exact storeGet_storeSet_self _ _ _
    · unfold removeFromOrderBook
      rw [if_pos hmem]
      rw [storeGet_storeSet_self]
      dsimp only
      exact hnd.not_mem_erase
    · unfold removeFromOrderBook
      rw [if_pos hmem]
      rw [storeGet_storeSet_self]
      dsimp only
      rw [userGet_userRemove, if_pos rfl]
    · rw [removeFromOrderBook_buyOrders]
    · rw [removeFromOrderBook_sellOrders]
    · rw [removeFromOrderBook_buyStops]
    · rw [removeFromOrderBook_sellStops]
    · intro inc k rest acc hkid
      refine matchLoop_cancelled_top _ inc k rest acc
        { o with status := OrderStatus.CANCELLED } ?_ rfl
      rw [hkid, removeFromOrderBook_store]
      exact storeGet_storeSet_self _ _ _

end OME

namespace OME

theorem matchLoop_mapInvF (keys : List Key) :
    ∀ (b : OrderBook) (inc : Order) (acc : List Trade) (other : List Key) (s : OrderSide),
    MapInvAuxF b (fun sd => if sd = s then keys else other) →
    MapInvAuxF (matchLoop b inc keys acc).2.1
      (fun sd => if sd = s then (matchLoop b inc keys acc).1 else other) := by
  induction keys with
  | nil => intro b inc acc other s h; exact h
  | cons k rest ih =>
    intro b inc acc other s h
    obtain ⟨hids, hndm, hndu, hfwd, hback⟩ := h
    rw [matchLoop]
    by_cases h1 : inc.remainingQuantity ≤ 0
    · rw [if_pos h1]
      exact ⟨hids, hndm, hndu, hfwd, hback⟩
    rw [if_neg h1]
    cases hs : storeGet b.store k.id with
    | none => exact ⟨hids, hndm, hndu, hfwd, hback⟩
    | some best =>
      dsimp only
      have hbid : best.orderId = k.id := hids k.id best hs
      by_cases hc : inc.isCompatibleWith best = true
      · rw [if_pos hc]
        set tp := (if best.type = OrderType.MARKET then
            (if inc.type = OrderType.MARKET then b.lastTradePrice else inc.price)
          else best.price) with htp
        set q := min inc.remainingQuantity best.remainingQuantity with hqd
        set best' := fillApply best q with hbd
        set inc2 := fillApply inc q with hid2
        set tr := (if inc.side = OrderSide.BUY then Trade.mk inc.orderId best.orderId tp q
          else Trade.mk best.orderId inc.orderId tp q) with htrd
        set b1 := ({ b with store := storeSet b.store k.id best', totalTrades := b.totalTrades + 1, totalVolume := b.totalVolume + q, lastTradePrice := tp } : OrderBook) with hb1
        have hids1 : StoreIdsOk b1 := by
          intro x o' hx
          by_cases hxk : x = k.id
          · subst hxk
            rw [show b1.store = storeSet b.store k.id best' from rfl,
              storeGet_storeSet_self] at hx
            injection hx with hx
            rw [← hx, hbd]
            exact hbid
          · rw [show b1.store = storeSet b.store k.id best' from rfl,
              storeGet_storeSet_ne _ _ _ _ hxk] at hx
            exact hids x o' hx
        have hfwd1 : ∀ id ∈ b1.orderMapIds, ∃ o, storeGet b1.store id = some o ∧
            (∃ k2 ∈ (if o.side = s then k :: rest else other), k2.id = id) ∧
            id ∈ userGet b1.userOrders o.userId := by
          intro id hid
          obtain ⟨o, hso, ⟨k2, hk2, hk2id⟩, huser⟩ := hfwd id hid
          by_cases hxk : id = k.id
          · subst hxk
            rw [hs] at hso
            injection hso with hso
            subst hso
            refine ⟨best', by rw [show b1.store = storeSet b.store k.id best' from rfl]; exact storeGet_storeSet_self _ _ _, ⟨k2, ?_, hk2id⟩, huser⟩
            exact hk2
          · refine ⟨o, ?_, ⟨k2, hk2, hk2id⟩, huser⟩
            rw [show b1.store = storeSet b.store k.id best' from rfl,
              storeGet_storeSet_ne _ _ _ _ hxk]
            exact hso
        have hback1 : ∀ p ∈ b1.userOrders, ∀ id ∈ p.2, id ∈ b1.orderMapIds ∧
            ∃ o, storeGet b1.store id = some o ∧ o.userId = p.1 := by
          intro p hp id hid
          obtain ⟨hmem, oo, hsoo, huid⟩ := hback p hp id hid
          refine ⟨hmem, ?_⟩
          by_cases hxk : id = k.id
          · subst hxk
            rw [hs] at hsoo
            injection hsoo with hsoo
            refine ⟨best', by rw [show b1.store = storeSet b.store k.id best' from rfl]; exact storeGet_storeSet_self _ _ _, ?_⟩
            rw [show best'.userId = best.userId from rfl, ← huid, hsoo]
          · exact ⟨oo, by rw [show b1.store = storeSet b.store k.id best' from rfl,
              storeGet_storeSet_ne _ _ _ _ hxk]; exact hsoo, huid⟩
        by_cases hq : best'.remainingQuantity > 0
        · rw [if_pos hq]
          exact ⟨hids1, hndm, hndu, hfwd1, hback1⟩
        · rw [if_neg hq]
          refine ih (removeFromOrderBook b1 best.orderId) inc2 (acc ++ [tr]) other s ?_
          rw [hbid]
          unfold removeFromOrderBook
          by_cases hmap : k.id ∈ b1.orderMapIds
          · rw [if_pos hmap]
            rw [show storeGet b1.store k.id = some best' from by
              rw [show b1.store = storeSet b.store k.id best' from rfl]
              exact storeGet_storeSet_self _ _ _]
            dsimp only
            refine ⟨?_, ?_, ?_, ?_, ?_⟩
            · intro x o' hx
              exact hids1 x o' hx
            · exact hndm.erase _
            · rw [userRemove_keys]
              exact hndu
            · intro id hid
              have hidmem : id ∈ b1.orderMapIds := (List.Nodup.mem_erase_iff hndm).mp hid |>.2
              have hidne : id ≠ k.id := (List.Nodup.mem_erase_iff hndm).mp hid |>.1
              obtain ⟨o, hso, ⟨k2, hk2, hk2id⟩, huser⟩ := hfwd1 id hidmem
              refine ⟨o, hso, ⟨k2, ?_, hk2id⟩, ?_⟩
              · dsimp only at hk2 ⊢
                by_cases hos : o.side = s
                · rw [if_pos hos] at hk2 ⊢
                  rcases List.mem_cons.mp hk2 with rfl | hk2r
                  · exact absurd hk2id.symm hidne
                  · exact hk2r
                · rw [if_neg hos] at hk2 ⊢
                  exact hk2
              · rw [userGet_userRemove]
                by_cases hu : o.userId = best'.userId
                · rw [if_pos hu, List.mem_filter]
                  exact ⟨huser, by simp [hidne]⟩
                · rw [if_neg hu]
                  exact huser
            · intro p hp id hid
              rcases List.mem_map.mp hp with ⟨p0, hp0, hfp⟩
              by_cases hpu : p0.1 = best'.userId
              · rw [if_pos hpu] at hfp
                subst hfp
                simp only [List.mem_filter] at hid
                obtain ⟨hid0, hidne0⟩ := hid
                have hidne : id ≠ k.id := by simpa using hidne0
                obtain ⟨hmem, oo, hsoo, huid⟩ := hback1 p0 hp0 id hid0
                exact ⟨(List.Nodup.mem_erase_iff hndm).mpr ⟨hidne, hmem⟩,
                  oo, hsoo, huid⟩
              · rw [if_neg hpu] at hfp
                subst hfp
                obtain ⟨hmem, oo, hsoo, huid⟩ := hback1 p0 hp0 id hid
                have hidne : id ≠ k.id := by
                  intro hh
                  rw [hh] at hsoo
                  rw [show storeGet b1.store k.id = some best' from by
                    rw [show b1.store = storeSet b.store k.id best' from rfl]
                    exact storeGet_storeSet_self _ _ _] at hsoo
                  injection hsoo with hsoo
                  rw [hsoo] at hpu
                  exact hpu huid.symm
                exact ⟨(List.Nodup.mem_erase_iff hndm).mpr ⟨hidne, hmem⟩,
                  oo, hsoo, huid⟩
          · rw [if_neg hmap]
            refine ⟨hids1, hndm, hndu, ?_, ?_⟩
            · intro id hid
              obtain ⟨o, hso, ⟨k2, hk2, hk2id⟩, huser⟩ := hfwd1 id hid
              refine ⟨o, hso, ⟨k2, ?_, hk2id⟩, huser⟩
              dsimp only at hk2 ⊢
              by_cases hos : o.side = s
              · rw [if_pos hos] at hk2 ⊢
                rcases List.mem_cons.mp hk2 with rfl | hk2r
                · exact absurd (by rw [← hk2id] at hid; exact hid) hmap
                · exact hk2r
              · rw [if_neg hos] at hk2 ⊢
                exact hk2
            · exact hback1
      · rw [if_neg hc]
        exact ⟨hids, hndm, hndu, hfwd, hback⟩

end OME

namespace OME

theorem addToOrderBook_mapInv (b : OrderBook) (o : Order)
    (h : MapInvBook b) (hfresh : storeGet b.store o.orderId = none) :
    MapInvBook (addToOrderBook b o) := by
  obtain ⟨hids, hndm, hndu, hfwd, hback⟩ := h
  have hnotmem : o.orderId ∉ b.orderMapIds := by
    intro hmem
    obtain ⟨oo, hoo, -⟩ := hfwd _ hmem
    rw [hfresh] at hoo
    cases hoo
  have hcore : StoreIdsOk (addToOrderBook b o) ∧
      (addToOrderBook b o).orderMapIds = o.orderId :: b.orderMapIds ∧
      (addToOrderBook b o).store = storeSet b.store o.orderId o ∧
      (addToOrderBook b o).userOrders = userAdd b.userOrders o.userId o.orderId := by
    unfold addToOrderBook
    by_cases hsd : o.side = OrderSide.BUY
    · rw [if_pos hsd]
      refine ⟨?_, by rw [if_neg hnotmem], rfl, rfl⟩
      intro x o' hx
      by_cases hxk : x = o.orderId
      · subst hxk
        rw [show ({ b with store := storeSet b.store o.orderId o, orderMapIds := if o.orderId ∈ b.orderMapIds then b.orderMapIds else o.orderId :: b.orderMapIds, userOrders := userAdd b.userOrders o.userId o.orderId } : OrderBook).store = storeSet b.store o.orderId o from rfl, storeGet_storeSet_self] at hx
        injection hx with hx
        rw [← hx]
      · rw [show ({ b with store := storeSet b.store o.orderId o, orderMapIds := if o.orderId ∈ b.orderMapIds then b.orderMapIds else o.orderId :: b.orderMapIds, userOrders := userAdd b.userOrders o.userId o.orderId } : OrderBook).store = storeSet b.store o.orderId o from rfl, storeGet_storeSet_ne _ _ _ _ hxk] at hx
        exact hids x o' hx
    · rw [if_neg hsd]
      refine ⟨?_, by rw [if_neg hnotmem], rfl, rfl⟩
      intro x o' hx
      by_cases hxk : x = o.orderId
      · subst hxk
        rw [show ({ b with store := storeSet b.store o.orderId o, orderMapIds := if o.orderId ∈ b.orderMapIds then b.orderMapIds else o.orderId :: b.orderMapIds, userOrders := userAdd b.userOrders o.userId o.orderId } : OrderBook).store = storeSet b.store o.orderId o from rfl, storeGet_storeSet_self] at hx
        injection hx with hx
        rw [← hx]
      · rw [show ({ b with store := storeSet b.store o.orderId o, orderMapIds := if o.orderId ∈ b.orderMapIds then b.orderMapIds else o.orderId :: b.orderMapIds, userOrders := userAdd b.userOrders o.userId o.orderId } : OrderBook).store = storeSet b.store o.orderId o from rfl, storeGet_storeSet_ne _ _ _ _ hxk] at hx
        exact hids x o' hx
  have hslotmem : ∀ (oo : Order), (∃ k ∈ (if oo.side = OrderSide.BUY then b.buyOrders
        else b.sellOrders), k.id = oo.orderId) →
      ∃ k ∈ (if oo.side = OrderSide.BUY then (addToOrderBook b o).buyOrders
        else (addToOrderBook b o).sellOrders), k.id = oo.orderId := by
    intro oo ⟨k, hk, hkid⟩
    unfold addToOrderBook
    by_cases hsd : o.side = OrderSide.BUY
    · rw [if_pos hsd]
      by_cases hoos : oo.side = OrderSide.BUY
      · rw [if_pos hoos] at hk ⊢
        exact ⟨k, (pqInsert_mem _ _ _ _).mpr (Or.inr hk), hkid⟩
      · rw [if_neg hoos] at hk ⊢
        exact ⟨k, hk, hkid⟩
    · rw [if_neg hsd]
      by_cases hoos : oo.side = OrderSide.BUY
      · rw [if_pos hoos] at hk ⊢
        exact ⟨k, hk, hkid⟩
      · rw [if_neg hoos] at hk ⊢
        exact ⟨k, (pqInsert_mem _ _ _ _).mpr (Or.inr hk), hkid⟩
  have hslotself : ∃ k ∈ (if o.side = OrderSide.BUY then (addToOrderBook b o).buyOrders
      else (addToOrderBook b o).sellOrders), k.id = o.orderId := by
    unfold addToOrderBook
    by_cases hsd : o.side = OrderSide.BUY
    · rw [if_pos hsd, if_pos hsd]
      exact ⟨⟨o.orderId, o.price, o.timestamp⟩, pqInsert_mem_self _ _ _, rfl⟩
    · rw [if_neg hsd, if_neg hsd]
      exact ⟨⟨o.orderId, o.price, o.timestamp⟩, pqInsert_mem_self _ _ _, rfl⟩
  refine ⟨hcore.1, ?_, ?_, ?_, ?_⟩
  · rw [hcore.2.1]
    exact List.nodup_cons.mpr ⟨hnotmem, hndm⟩
  · rw [hcore.2.2.2, userAdd_keys]
    split_ifs with hm
    · exact hndu
    · rw [List.nodup_append]
      exact ⟨hndu, List.nodup_singleton _, by
        intro a ha hb
        simp only [List.mem_singleton] at hb
        subst hb
        exact hm ha⟩
  · intro id hid
    rw [hcore.2.1] at hid
    rcases List.mem_cons.mp hid with rfl | hold
    · refine ⟨o, ?_, ?_, ?_⟩
      · rw [hcore.2.2.1]
        exact storeGet_storeSet_self _ _ _
      · exact hslotself
      · rw [hcore.2.2.2, userGet_userAdd, if_pos rfl]
        exact List.mem_append.mpr (Or.inr (List.mem_singleton.mpr rfl))
    · obtain ⟨oo, hso, hslot, huser⟩ := hfwd id hold
      have hidne : id ≠ o.orderId := by
        intro hh
        rw [hh, hfresh] at hso
        cases hso
      have hooid : oo.orderId = id := hids id oo hso
      refine ⟨oo, ?_, ?_, ?_⟩
      · rw [hcore.2.2.1]
        exact (storeGet_storeSet_ne _ _ _ _ hidne).trans hso
      · have := hslotmem oo (by rw [hooid]; exact hslot)
        rw [hooid] at this
        exact this
      · rw [hcore.2.2.2, userGet_userAdd]
        split_ifs with hu
        · exact List.mem_append.mpr (Or.inl huser)
        · exact huser
  · intro p hp id hid
    rw [hcore.2.2.2] at hp
    rcases userAdd_mem b.userOrders o.userId o.orderId p hp id hid with ⟨rfl, hpu⟩ | ⟨l, hl, hidl⟩
    · refine ⟨by rw [hcore.2.1]; exact List.mem_cons_self _ _, o, ?_, by rw [hpu]⟩
      rw [hcore.2.2.1]
      exact storeGet_storeSet_self _ _ _
    · obtain ⟨hmem, oo, hsoo, huid⟩ := hback (p.1, l) hl id hidl
      have hidne : id ≠ o.orderId := by
        intro hh
        rw [hh, hfresh] at hsoo
        cases hsoo
      refine ⟨by rw [hcore.2.1]; exact List.mem_cons_of_mem _ hmem, oo, ?_, huid⟩
      rw [hcore.2.2.1]
      exact (storeGet_storeSet_ne _ _ _ _ hidne).trans hsoo

end OME

namespace OME

theorem userRemove_mem (us : List (String × List String)) (u x : String)
    (p : String × List String) (hp : p ∈ userRemove us u x) :
    ∃ l, (p.1, l) ∈ us ∧ (∀ id ∈ p.2, id ∈ l) ∧ (p.1 = u → x ∉ p.2) := by
  simp only [userRemove, List.mem_map] at hp
  obtain ⟨⟨qa, qb⟩, hq, hpq⟩ := hp
  dsimp only at hpq
  by_cases hqu : qa = u
  · rw [if_pos hqu] at hpq
    subst hpq
    refine ⟨qb, hq, ?_, ?_⟩
    · intro id hid
      exact (List.mem_filter.mp hid).1
    · intro _ hx
      have hxx := (List.mem_filter.mp hx).2
      simp at hxx
  · rw [if_neg hqu] at hpq
    subst hpq
    exact ⟨qb, hq, fun id hid => hid, fun hu => absurd hu hqu⟩

theorem cancelOrder_mapInv (b : OrderBook) (oid : String) (h : MapInvBook b) :
    MapInvBook (cancelOrder b oid).1 := by
  obtain ⟨hids, hndm, hndu, hfwd, hback⟩ := h
  unfold cancelOrder
  by_cases hmem : oid ∈ b.orderMapIds
  · rw [if_pos hmem]
    cases hso : storeGet b.store oid with
    | none =>
      obtain ⟨oo, hoo, -⟩ := hfwd oid hmem
      rw [hso] at hoo
      cases hoo
    | some o =>
      dsimp only
      have hB : removeFromOrderBook
          { b with store := storeSet b.store oid { o with status := OrderStatus.CANCELLED } }
          oid =
          { b with store := storeSet b.store oid { o with status := OrderStatus.CANCELLED }, orderMapIds := b.orderMapIds.erase oid, userOrders := userRemove b.userOrders o.userId oid } := by
        unfold removeFromOrderBook
        rw [if_pos hmem, show storeGet (storeSet b.store oid
          { o with status := OrderStatus.CANCELLED }) oid =
          some { o with status := OrderStatus.CANCELLED } from storeGet_storeSet_self _ _ _]
      rw [hB]
      refine ⟨?_, ?_, ?_, ?_, ?_⟩
      · intro x o' hx
        by_cases hxk : x = oid
        · subst hxk
          rw [show storeGet (storeSet b.store x { o with status := OrderStatus.CANCELLED }) x =
            some { o with status := OrderStatus.CANCELLED } from storeGet_storeSet_self _ _ _] at hx
          injection hx with hx
          rw [← hx]
          exact hids x o hso
        · rw [show storeGet (storeSet b.store oid { o with status := OrderStatus.CANCELLED }) x =
            storeGet b.store x from storeGet_storeSet_ne _ _ _ _ hxk] at hx
          exact hids x o' hx
      · exact hndm.erase _
      · rw [show ({ b with store := storeSet b.store oid { o with status := OrderStatus.CANCELLED }, orderMapIds := b.orderMapIds.erase oid, userOrders := userRemove b.userOrders o.userId oid } : OrderBook).userOrders = userRemove b.userOrders o.userId oid from rfl, userRemove_keys]
        exact hndu
      · intro id hid
        have hid' := (List.Nodup.mem_erase_iff hndm).mp hid
        obtain ⟨oo, hsoo, hslot, huser⟩ := hfwd id hid'.2
        refine ⟨oo, ?_, hslot, ?_⟩
        · rw [show storeGet ({ b with store := storeSet b.store oid { o with status := OrderStatus.CANCELLED }, orderMapIds := b.orderMapIds.erase oid, userOrders := userRemove b.userOrders o.userId oid } : OrderBook).store id = storeGet b.store id from storeGet_storeSet_ne _ _ _ _ hid'.1]
          exact hsoo
        · rw [show ({ b with store := storeSet b.store oid { o with status := OrderStatus.CANCELLED }, orderMapIds := b.orderMapIds.erase oid, userOrders := userRemove b.userOrders o.userId oid } : OrderBook).userOrders = userRemove b.userOrders o.userId oid from rfl, userGet_userRemove]
          split_ifs with hu
          · exact List.mem_filter.mpr ⟨huser, by simp [hid'.1]⟩
          · exact huser
      · intro p hp id hid
        obtain ⟨l, hl, hsub, hxn⟩ := userRemove_mem _ _ _ _ hp
        obtain ⟨hmem', oo, hsoo, huid⟩ := hback (p.1, l) hl id (hsub id hid)
        have hidne : id ≠ oid := by
          intro hh
          by_cases hpu : p.1 = o.userId
          · exact hxn hpu (hh ▸ hid)
          · rw [hh, hso] at hsoo
            injection hsoo with hsoo
            rw [← hsoo] at huid
            exact hpu huid.symm
        refine ⟨(List.Nodup.mem_erase_iff hndm).mpr ⟨hidne, hmem'⟩, oo, ?_, huid⟩
        rw [show storeGet ({ b with store := storeSet b.store oid { o with status := OrderStatus.CANCELLED }, orderMapIds := b.orderMapIds.erase oid, userOrders := userRemove b.userOrders o.userId oid } : OrderBook).store id = storeGet b.store id from storeGet_storeSet_ne _ _ _ _ hidne]
        exact hsoo
  · rw [if_neg hmem]
    exact ⟨hids, hndm, hndu, hfwd, hback⟩

end OME

namespace OME

theorem matchLoop_store_none (keys : List Key) :
    ∀ (b : OrderBook) (inc : Order) (acc : List Trade) (x : String),
    storeGet b.store x = none →
    storeGet (matchLoop b inc keys acc).2.1.store x = none := by
  induction keys with
  | nil => intro b inc acc x hx; exact hx
  | cons k rest ih =>
    intro b inc acc x hx
    have hxk : x ≠ k.id → ∀ (st : List (String × Order)) (o' : Order),
        storeGet (storeSet b.store k.id o') x = storeGet b.store x := by
      intro hne st o'
      exact storeGet_storeSet_ne _ _ _ _ hne
    rw [matchLoop]
    cases hs : storeGet b.store k.id with
    | none =>
      dsimp only
      split_ifs <;> exact hx
    | some best =>
      have hne : x ≠ k.id := by
        intro hh
        rw [hh, hs] at hx
        cases hx
      dsimp only
      split_ifs <;>
        first
        | exact hx
        | exact (storeGet_storeSet_ne _ _ _ _ hne).trans hx
        | (refine ih _ _ _ x ?_
           rw [removeFromOrderBook_store]
           exact (storeGet_storeSet_ne _ _ _ _ hne).trans hx)

theorem matchOrder_fresh (b : OrderBook) (inc : Order) (x : String)
    (hx : storeGet b.store x = none) :
    storeGet (matchOrder b inc).1.store x = none := by
  unfold matchOrder
  by_cases hsd : inc.side = OrderSide.BUY
  · rw [if_pos hsd]
    exact matchLoop_store_none b.sellOrders b inc [] x hx
  · rw [if_neg hsd]
    exact matchLoop_store_none b.buyOrders b inc [] x hx

theorem matchOrder_incId (b : OrderBook) (inc : Order) :
    (matchOrder b inc).2.1.orderId = inc.orderId := by
  unfold matchOrder
  by_cases hsd : inc.side = OrderSide.BUY
  · rw [if_pos hsd]
    exact (matchLoop_inc_evolved b.sellOrders b inc []).1
  · rw [if_neg hsd]
    exact (matchLoop_inc_evolved b.buyOrders b inc []).1

theorem matchOrder_mapInv (b : OrderBook) (inc : Order) (h : MapInvBook b) :
    MapInvBook (matchOrder b inc).1 := by
  unfold matchOrder
  by_cases hsd : inc.side = OrderSide.BUY
  · rw [if_pos hsd]
    dsimp only
    have h0 : MapInvAuxF b (fun sd => if sd = OrderSide.SELL then b.sellOrders
        else b.buyOrders) := by
      have hfe : (fun sd => if sd = OrderSide.SELL then b.sellOrders else b.buyOrders)
          = (fun sd => if sd = OrderSide.BUY then b.buyOrders else b.sellOrders) := by
        funext sd
        cases sd <;> rfl
      rw [hfe]
      exact h
    have h1 := matchLoop_mapInvF b.sellOrders b inc [] b.buyOrders OrderSide.SELL h0
    have hfe2 : (fun sd => if sd = OrderSide.SELL then (matchLoop b inc b.sellOrders []).1
          else b.buyOrders)
        = (fun sd => if sd = OrderSide.BUY then (matchLoop b inc b.sellOrders []).2.1.buyOrders
          else (matchLoop b inc b.sellOrders []).1) := by
      funext sd
      cases sd
      · have hb := (matchLoop_fields b.sellOrders b inc []).1
        simp [hb]
      · simp
    rw [hfe2] at h1
    exact h1
  · rw [if_neg hsd]
    dsimp only
    have h0 : MapInvAuxF b (fun sd => if sd = OrderSide.BUY then b.buyOrders
        else b.sellOrders) := h
    have h1 := matchLoop_mapInvF b.buyOrders b inc [] b.sellOrders OrderSide.BUY h0
    have hfe2 : (fun sd => if sd = OrderSide.BUY then (matchLoop b inc b.buyOrders []).1
          else b.sellOrders)
        = (fun sd => if sd = OrderSide.BUY then (matchLoop b inc b.buyOrders []).1
          else (matchLoop b inc b.buyOrders []).2.1.sellOrders) := by
      funext sd
      cases sd
      · simp
      · have hs := (matchLoop_fields b.buyOrders b inc []).2.1
        simp [hs]
    rw [hfe2] at h1
    exact h1

theorem addOrder_mapInv (b : OrderBook) (o : Order) (b' : OrderBook) (tr : List Trade)
    (h : MapInvBook b) (hfresh : storeGet b.store o.orderId = none)
    (heq : addOrder b o = some (b', tr)) : MapInvBook b' := by
  by_cases hstop : o.type = OrderType.STOP_LOSS
  · unfold addOrder at heq
    by_cases hsym : o.symbol ≠ b.symbol
    · rw [if_pos hsym] at heq
      cases heq
    · rw [if_neg hsym, if_pos hstop] at heq
      injection heq with heq
      injection heq with h1 h2
      rw [← h1]
      by_cases hsd : o.side = OrderSide.BUY
      · rw [if_pos hsd]
        exact addToOrderBook_mapInv _ o h hfresh
      · rw [if_neg hsd]
        exact addToOrderBook_mapInv _ o h hfresh
  · have hsym : o.symbol = b.symbol := by
      by_cases hs : o.symbol ≠ b.symbol
      · unfold addOrder at heq
        rw [if_pos hs] at heq
        cases heq
      · exact not_not.mp hs
    rw [addOrder_nonstop b o hsym hstop] at heq
    injection heq with heq
    injection heq with h1 h2
    rw [← h1]
    have hm := matchOrder_mapInv b o h
    by_cases hrem : (matchOrder b o).2.1.remainingQuantity > 0
    · rw [if_pos hrem]
      refine addToOrderBook_mapInv _ _ hm ?_
      rw [matchOrder_incId]
      exact matchOrder_fresh b o o.orderId hfresh
    · rw [if_neg hrem]
      exact hm

theorem emptyBook_mapInv (s : String) : MapInvBook (emptyBook s) := by
  refine ⟨?_, ?_, ?_, ?_, ?_⟩
  · intro x o hx
    cases hx
  · exact List.Pairwise.nil
  · exact List.Pairwise.nil
  · intro id hid
    cases hid
  · intro p hp
    cases hp

theorem reach_mapInv (b : OrderBook) (h : Reach b) : MapInvBook b := by
  induction h with
  | base s => exact emptyBook_mapInv s
  | add b o b' tr hr hv hf heq ih => exact addOrder_mapInv b o b' tr ih hf heq
  | cancel b oid b' r hr heq ih =>
    have := cancelOrder_mapInv b oid ih
    rw [heq] at this
    exact this

end OME

namespace OME

/-- C7: in every reachable book, orderMap and userOrders stay consistent with
the store and the side heaps: each mapped id is unique, denotes a live stored
order carrying that id, with an entry in the priority queue of its own side
and in its user's list; conversely every id in a user list is mapped and
stored under that user. -/
theorem book_map_consistency (b : OrderBook) (h : Reach b) :
    (∀ id ∈ b.orderMapIds, ∃ o, storeGet b.store id = some o ∧ o.orderId = id ∧
      (∃ k ∈ (if o.side = OrderSide.BUY then b.buyOrders else b.sellOrders), k.id = id) ∧
      id ∈ userGet b.userOrders o.userId) ∧
    (∀ p ∈ b.userOrders, ∀ id ∈ p.2, id ∈ b.orderMapIds ∧
      ∃ o, storeGet b.store id = some o ∧ o.userId = p.1) := by
  obtain ⟨hids, hndm, hndu, hfwd, hback⟩ := reach_mapInv b h
  refine ⟨?_, hback⟩
  intro id hid
  obtain ⟨o, hso, hslot, huser⟩ := hfwd id hid
  exact ⟨o, hso, hids id o hso, hslot, huser⟩

/-- Witness for C7 at the one-stop-order book c7book. -/
theorem book_map_consistency_witness :
    (∀ id ∈ c7book.orderMapIds, ∃ o, storeGet c7book.store id = some o ∧ o.orderId = id ∧
      (∃ k ∈ (if o.side = OrderSide.BUY then c7book.buyOrders else c7book.sellOrders),
        k.id = id) ∧
      id ∈ userGet c7book.userOrders o.userId) ∧
    (∀ p ∈ c7book.userOrders, ∀ id ∈ p.2, id ∈ c7book.orderMapIds ∧
      ∃ o, storeGet c7book.store id = some o ∧ o.userId = p.1) :=
  book_map_consistency c7book (Reach.add (emptyBook "S") exStopBuy c7book []
    (Reach.base "S") (by unfold ValidOrder; decide) (by decide) (by decide))

end OME

namespace OME

theorem keysHaveIds_of_check (s : List (String × Order)) (keys : List Key)
    (h : ∀ k ∈ keys, (storeGet s k.id).map Order.orderId = some k.id) :
    KeysHaveIds s keys := by
  intro k hk
  have hk2 := h k hk
  cases hs : storeGet s k.id with
  | none =>
    rw [hs] at hk2
    cases hk2
  | some o =>
    rw [hs] at hk2
    injection hk2 with hk2
    exact ⟨o, rfl, hk2⟩

/-- Witness for C1: the price policy holds for the limit buy B1 matched
against the two resting asks of s3book. -/
theorem trade_price_policy_witness :
    PriceOk (matchOrder s3book exB1).1.store exB1.type exB1.price exB1.side
      s3book.lastTradePrice (matchOrder s3book exB1).2.2 :=
  trade_price_policy s3book exB1 (keysHaveIds_of_check _ _ (by decide)) (by decide)

/-- Witness for C2: a market sell into an empty book rests with its full
remainder, status PENDING. -/
theorem market_remainder_rests_witness :
    ∃ b' trades, addOrder (emptyBook "S") exMktSell1 = some (b', trades) ∧
      ((matchOrder (emptyBook "S") exMktSell1).2.1.remainingQuantity > 0 →
        exMktSell1.orderId ∈ b'.orderMapIds ∧
        ∃ st, storeGet b'.store exMktSell1.orderId = some st ∧
          (st.status = OrderStatus.PENDING ∨ st.status = OrderStatus.PARTIAL_FILL)) :=
  market_remainder_rests (emptyBook "S") exMktSell1 rfl rfl rfl

/-- Witness for C3: the stop buy sb lands in the stop tree and on the bid
heap of the previously empty book. -/
theorem stop_insert_spec_witness :
    ∃ b', addOrder (emptyBook "S") exStopBuy = some (b', []) ∧
      exStopBuy.orderId ∈ b'.orderMapIds ∧
      (⟨exStopBuy.orderId, exStopBuy.price, exStopBuy.timestamp⟩ : Key) ∈
        (if exStopBuy.side = OrderSide.BUY then b'.buyOrders else b'.sellOrders) ∧
      (exStopBuy.side = OrderSide.BUY →
        (∀ sk ∈ (emptyBook "S").buyStopLossOrders, sk.trigger ≠ exStopBuy.triggerPrice) →
        (⟨exStopBuy.orderId, exStopBuy.triggerPrice⟩ : StopKey) ∈ b'.buyStopLossOrders) ∧
      (exStopBuy.side = OrderSide.SELL →
        (∀ sk ∈ (emptyBook "S").sellStopLossOrders, sk.trigger ≠ exStopBuy.triggerPrice) →
        (⟨exStopBuy.orderId, exStopBuy.triggerPrice⟩ : StopKey) ∈ b'.sellStopLossOrders) :=
  stop_insert_spec (emptyBook "S") exStopBuy rfl rfl

/-- Witness for C6: B1 fills S2 only after the same-priced, earlier S1 is
fully filled. -/
theorem time_priority_witness :
    ∃ A', storeGet (matchOrder s3book exB1).1.store "S1" = some A' ∧
      A'.remainingQuantity = 0 :=
  time_priority s3book exB1 ⟨"S1", 100, 1⟩ ⟨"S2", 100, 2⟩ (by decide) (by decide)
    (by unfold oppSorted HeapSorted; decide) (by decide) rfl (by decide) (by decide)

/-- Witness for C8 at the one-order book c8book. -/
theorem cancel_spec_witness :
    ("x1" ∉ c8book.orderMapIds → cancelOrder c8book "x1" = (c8book, false)) ∧
    (∀ o, "x1" ∈ c8book.orderMapIds → storeGet c8book.store "x1" = some o →
      (cancelOrder c8book "x1").2 = true ∧
      storeGet (cancelOrder c8book "x1").1.store "x1" =
        some { o with status := OrderStatus.CANCELLED } ∧
      "x1" ∉ (cancelOrder c8book "x1").1.orderMapIds ∧
      userGet (cancelOrder c8book "x1").1.userOrders o.userId =
        (userGet c8book.userOrders o.userId).filter (fun x => x ≠ "x1") ∧
      (cancelOrder c8book "x1").1.buyOrders = c8book.buyOrders ∧
      (cancelOrder c8book "x1").1.sellOrders = c8book.sellOrders ∧
      (cancelOrder c8book "x1").1.buyStopLossOrders = c8book.buyStopLossOrders ∧
      (cancelOrder c8book "x1").1.sellStopLossOrders = c8book.sellStopLossOrders ∧
      (∀ (inc : Order) (k : Key) (rest : List Key) (acc : List Trade), k.id = "x1" →
        matchLoop (cancelOrder c8book "x1").1 inc (k :: rest) acc =
          (k :: rest, (cancelOrder c8book "x1").1, inc, acc))) :=
  cancel_spec c8book "x1" (by decide)

end OME
